import Mathlib

/-!
Shallow embedding of the order-placement and inventory engine of
`bookstore_final.py` (ElDorado Bookstore Management System), together with
its input validators.  Relational rows become Lean structures, the MySQL
store becomes an explicit `Store` value, and every fallible operation
returns `Except Err Store`; an `Except.error` result models a rolled-back
transaction, so the caller's store is unchanged.

Modelling conventions, each tied to the schema created in
`DatabaseManager.initialize_database`:
* `Books.Quantity` is `INT ... CHECK (Quantity >= 0)`; the check constraint
  is modelled inside `decrementBook` (the UPDATE statement fails and the
  enclosing transaction rolls back).
* `DECIMAL(10,2)` prices are modelled as integer cents; the two-decimal
  string round-trip through the cart widget is value-preserving at this
  precision.
* Foreign keys without an `ON DELETE` clause restrict deletion
  (`OrderItems.BookID -> Books`, `Orders.StaffID -> Staff`,
  `Books.Update_by -> Staff`, `BookLog.ActionBy -> Staff`), while
  `BookLog.BookID -> Books` is declared `ON DELETE CASCADE`.
* `OrderDate` / timestamp columns are omitted: no claim mentions wall-clock
  time, and no control flow depends on it.
-/

deriving instance DecidableEq for Except

namespace Bookstore

/-- `Role ENUM('Manager', 'Clerk', 'Librarian')` of the Staff table. -/
inductive Role where
  | Manager
  | Clerk
  | Librarian
  deriving DecidableEq, Repr

/-- A row of the `Staff` table (password hash and hire date omitted: no
claim touches them). -/
structure Staff where
  staffID : Nat
  name : String
  role : Role
  email : String
  phone : String
  deriving DecidableEq, Repr

/-- A row of the `Books` table.  `quantity` is `INT` subject to
`CHECK (Quantity >= 0)`; `price` is `DECIMAL(10,2)` in cents.
`updateBy` is the `Update_by` column (foreign key into `Staff`). -/
structure Book where
  bookID : Nat
  bookName : String
  genre : String
  quantity : Int
  author : String
  publisher : String
  price : Int
  updateBy : Nat
  deriving DecidableEq, Repr

/-- A row of the `Accounts` table. -/
structure Account where
  customerID : Nat
  customerName : String
  phone : String
  email : Option String
  membership : Bool
  deriving DecidableEq, Repr

/-- `Status ENUM('Pending', 'Completed', 'Cancelled')` of the Orders table. -/
inductive Status where
  | Pending
  | Completed
  | Cancelled
  deriving DecidableEq, Repr

/-- A row of the `Orders` table (`OrderDate` omitted). -/
structure Order where
  orderID : Nat
  customerID : Nat
  staffID : Nat
  totalAmount : Int
  status : Status
  deriving DecidableEq, Repr

/-- A row of the `OrderItems` table. -/
structure OrderItem where
  orderID : Nat
  bookID : Nat
  quantity : Int
  price : Int
  deriving DecidableEq, Repr

/-- `Action ENUM('INSERT', 'UPDATE', 'DELETE')` of the BookLog table. -/
inductive LogAction where
  | Insert
  | Update
  | Delete
  deriving DecidableEq, Repr

/-- A row of the append-only `BookLog` table (timestamp omitted). -/
structure LogEntry where
  bookID : Nat
  action : LogAction
  actionBy : Nat
  deriving DecidableEq, Repr

/-- The whole relational store.  `nextOrderID` models the AUTO_INCREMENT
counter behind `cursor.lastrowid` for the Orders table. -/
structure Store where
  staff : List Staff
  books : List Book
  accounts : List Account
  orders : List Order
  orderItems : List OrderItem
  bookLog : List LogEntry
  nextOrderID : Nat
  deriving DecidableEq, Repr

/-- One line of the in-memory cart treeview: `(book_id, book_name,
quantity, price, subtotal)` as inserted by `add_to_cart`.  `price` is the
unit price snapshotted at add time, `subtotal = price * quantity`. -/
structure CartLine where
  bookID : Nat
  bookName : String
  quantity : Int
  price : Int
  subtotal : Int
  deriving DecidableEq, Repr

/-- Typed failure outcomes.  Every error aborts (rolls back) the enclosing
operation, matching the `except` + `rollback` handlers in the source. -/
inductive Err where
  /-- `add_to_cart`: "Quantity must be positive". -/
  | quantityNotPositive
  /-- `add_to_cart`: "Book not found". -/
  | bookNotFound
  /-- Stock-sufficiency failure: either the explicit availability check in
  `add_to_cart` ("Only N available in stock") or the Books
  `CHECK (Quantity >= 0)` constraint aborting an UPDATE. -/
  | insufficientStock
  /-- `place_order`: "Cart is empty". -/
  | emptyCart
  /-- `update_order_status`: "Only pending orders can be modified". -/
  | invalidTransition
  /-- `update_order_status` / `delete_selected_book` with no matching row
  selected. -/
  | noSelection
  /-- `delete_selected_book`: "Cannot delete book - no manager exists for
  logging.". -/
  | noManagerForAudit
  /-- `delete_staff`: "Cannot delete the last manager". -/
  | lastManager
  /-- `delete_staff`: "Cannot delete currently logged in staff". -/
  | selfDelete
  /-- A MySQL foreign-key violation: an INSERT referencing a missing parent
  row, or a DELETE with dependent child rows (no cascade). -/
  | fkViolation
  deriving DecidableEq, Repr

/-- `SELECT ... FROM Books WHERE BookID=%s` (first matching row). -/
def findBook (st : Store) (bid : Nat) : Option Book :=
  st.books.find? (fun b => b.bookID == bid)

/-- `SELECT ... FROM Orders WHERE OrderID=%s` (first matching row). -/
def findOrder (st : Store) (oid : Nat) : Option Order :=
  st.orders.find? (fun o => o.orderID == oid)

/-- `SELECT ... FROM Staff WHERE StaffID=%s` (first matching row). -/
def findStaff (st : Store) (sid : Nat) : Option Staff :=
  st.staff.find? (fun s => s.staffID == sid)

/-- `SELECT COUNT(*) FROM Staff WHERE Role='Manager'`. -/
def managerCount (st : Store) : Nat :=
  (st.staff.filter (fun s => s.role == Role.Manager)).length

/-- `SELECT StaffID FROM Staff WHERE Role='Manager' LIMIT 1`. -/
def firstManager (st : Store) : Option Staff :=
  st.staff.find? (fun s => s.role == Role.Manager)

/-- Whether a Books row with this id exists (a foreign-key target). -/
def bookRowExists (books : List Book) (bid : Nat) : Bool :=
  books.any (fun b => b.bookID == bid)

/-- Whether an Accounts row with this id exists (a foreign-key target). -/
def accountExists (st : Store) (cid : Nat) : Bool :=
  st.accounts.any (fun a => a.customerID == cid)

/-- Whether a Staff row with this id exists (a foreign-key target). -/
def staffExists (st : Store) (sid : Nat) : Bool :=
  st.staff.any (fun s => s.staffID == sid)

/-- `BookstoreApp.add_to_cart` (bookstore_final.py:1454).  The UI passes the
selected book id and the parsed quantity.  The quantity must be positive,
the book row is re-read, availability is checked against current stock, and
on success one cart line is appended with the unit price snapshotted now. -/
def add_to_cart (st : Store) (cart : List CartLine) (bookID : Nat)
    (quantity : Int) : Except Err (List CartLine) :=
  if quantity ≤ 0 then .error .quantityNotPositive
  else
    match findBook st bookID with
    | none => .error .bookNotFound
    | some b =>
      if quantity > b.quantity then .error .insufficientStock
      else .ok (cart ++ [⟨bookID, b.bookName, quantity, b.price, b.price * quantity⟩])

/-- `(item_count, amount)` over the cart, as shown by `update_order_totals`
and recomputed at the top of `place_order`; the amount is the sum of the
snapshotted subtotals. -/
def cartTotal (cart : List CartLine) : Int :=
  (cart.map (fun l => l.subtotal)).sum

/-- `UPDATE Books SET Quantity = Quantity - q WHERE BookID = bid` under the
schema constraint `CHECK (Quantity >= 0)`: if any updated row would go
negative the statement fails (MySQL >= 8.0.16 enforces the check) and the
enclosing transaction rolls back. -/
def decrementBook (books : List Book) (bid : Nat) (q : Int) :
    Except Err (List Book) :=
  if books.any (fun b => b.bookID == bid && b.quantity - q < 0) then
    .error .insufficientStock
  else
    .ok (books.map (fun b =>
      if b.bookID == bid then { b with quantity := b.quantity - q } else b))

/-- The per-line loop of `place_order` (bookstore_final.py:1563): insert one
OrderItems row (its `BookID` foreign key must resolve), then, when the order
is being placed as Completed, decrement the book's stock.  A failed
decrement aborts the loop and the transaction, discarding the partial
writes, so the item insert and the decrement are applied in one step. -/
def insertItemsAndDecrement (status : Status) (orderID : Nat) :
    List CartLine → Store → Except Err Store
  | [], st => .ok st
  | l :: ls, st =>
    if bookRowExists st.books l.bookID then
      match (if status = Status.Completed then
               decrementBook st.books l.bookID l.quantity
             else .ok st.books) with
      | .ok books2 =>
        insertItemsAndDecrement status orderID ls
          { st with books := books2,
                    orderItems := st.orderItems
                      ++ [OrderItem.mk orderID l.bookID l.quantity l.price] }
      | .error e => .error e
    else .error .fkViolation

/-- `BookstoreApp.place_order` (bookstore_final.py:1524).  One transaction:
insert the Orders row (total = sum of the snapshotted cart subtotals), then
per cart line insert an OrderItems row and, if the status is Completed,
decrement stock.  Any failure rolls the whole transaction back: the caller
keeps the original store. -/
def place_order (st : Store) (cart : List CartLine) (customerID staffID : Nat)
    (status : Status) : Except Err Store :=
  if cart.isEmpty then .error .emptyCart
  else if accountExists st customerID then
    if staffExists st staffID then
      insertItemsAndDecrement status st.nextOrderID cart
        { st with
          orders := st.orders
            ++ [Order.mk st.nextOrderID customerID staffID (cartTotal cart) status],
          nextOrderID := st.nextOrderID + 1 }
    else .error .fkViolation
  else .error .fkViolation

/-- `SELECT BookID, Quantity FROM OrderItems WHERE OrderID=%s`. -/
def orderItemsOf (st : Store) (oid : Nat) : List OrderItem :=
  st.orderItems.filter (fun i => i.orderID == oid)

/-- The completion loop of `update_order_status`: decrement stock once per
order item, aborting on the first check-constraint failure. -/
def decrementAll : List OrderItem → List Book → Except Err (List Book)
  | [], books => .ok books
  | i :: is, books =>
    match decrementBook books i.bookID i.quantity with
    | .ok books2 => decrementAll is books2
    | .error e => .error e

/-- `UPDATE Orders SET Status=%s WHERE OrderID=%s`. -/
def setOrderStatus (orders : List Order) (oid : Nat) (s : Status) : List Order :=
  orders.map (fun o => if o.orderID == oid then { o with status := s } else o)

/-- `BookstoreApp.update_order_status` (bookstore_final.py:1640).  The rows
shown in the pending-orders tree mirror the store (the tree is reloaded
after every mutation), so the guard `current_status != "Pending"` reads the
order's current status.  Completing decrements stock per order item inside
the same transaction as the status update; cancelling only updates the
status. -/
def update_order_status (st : Store) (orderID : Nat) (newStatus : Status) :
    Except Err Store :=
  match findOrder st orderID with
  | none => .error .noSelection
  | some o =>
    if o.status = Status.Pending then
      match (if newStatus = Status.Completed then
               decrementAll (orderItemsOf st orderID) st.books
             else .ok st.books) with
      | .ok books2 =>
        .ok { st with books := books2,
                      orders := setOrderStatus st.orders orderID newStatus }
      | .error e => .error e
    else .error .invalidTransition

/-- The `BeforeBookDelete` trigger (bookstore_final.py:127): pick an
arbitrary Manager (`LIMIT 1`); if one exists, append a DELETE log entry
attributed to that Manager. -/
def beforeBookDelete (st : Store) (bid : Nat) : List LogEntry :=
  match firstManager st with
  | some m => st.bookLog ++ [LogEntry.mk bid LogAction.Delete m.staffID]
  | none => st.bookLog

/-- Whether any OrderItems row references this book.  `OrderItems.BookID`
has no `ON DELETE` clause, so such rows block `DELETE FROM Books`. -/
def bookReferenced (st : Store) (bid : Nat) : Bool :=
  st.orderItems.any (fun i => i.bookID == bid)

/-- `DELETE FROM Books WHERE BookID = %s` when it succeeds: the
`BeforeBookDelete` trigger fires for the deleted row, the row is removed,
and `BookLog.BookID ... ON DELETE CASCADE` removes that book's log rows
(including the one the trigger just wrote). -/
def deleteBookRow (st : Store) (bid : Nat) : Store :=
  if bookRowExists st.books bid then
    { st with
      books := st.books.filter (fun b => !(b.bookID == bid)),
      bookLog := (beforeBookDelete st bid).filter (fun e => !(e.bookID == bid)) }
  else st

/-- `BookstoreApp.delete_selected_book` (bookstore_final.py:489): refuse
when no Manager exists (audit attribution); otherwise run the DELETE, which
MySQL rejects (rolling back the trigger's log write too) when dependent
OrderItems rows reference the book. -/
def delete_selected_book (st : Store) (bid : Nat) : Except Err Store :=
  match firstManager st with
  | none => .error .noManagerForAudit
  | some _ =>
    if bookReferenced st bid then .error .fkViolation
    else .ok (deleteBookRow st bid)

/-- Whether any row references this staff member (`Orders.StaffID`,
`Books.Update_by`, `BookLog.ActionBy` are restricting foreign keys). -/
def staffReferenced (st : Store) (sid : Nat) : Bool :=
  st.orders.any (fun o => o.staffID == sid)
    || st.books.any (fun b => b.updateBy == sid)
    || st.bookLog.any (fun e => e.actionBy == sid)

/-- `SELECT Role FROM Staff WHERE StaffID=%s` compared against 'Manager';
an empty result compares unequal. -/
def targetIsManager (st : Store) (sid : Nat) : Bool :=
  match findStaff st sid with
  | some s => s.role == Role.Manager
  | none => false

/-- `BookstoreApp.delete_staff` (bookstore_final.py:1160): refuse to delete
the currently logged-in staff member; refuse to delete a Manager when at
most one Manager exists; otherwise run the DELETE, which MySQL rejects when
dependent rows reference the staff member. -/
def delete_staff (st : Store) (currentStaffID targetStaffID : Nat) :
    Except Err Store :=
  if currentStaffID = targetStaffID then .error .selfDelete
  else if targetIsManager st targetStaffID && managerCount st ≤ 1 then
    .error .lastManager
  else if staffReferenced st targetStaffID then .error .fkViolation
  else .ok { st with staff := st.staff.filter (fun s => !(s.staffID == targetStaffID)) }

/-! ### Validators (bookstore_final.py:188-213)

The validators take Python `str` values; the model covers ASCII input.
`str.strip()` and the regex class `\s` both use the ASCII whitespace set
below on such input. -/

/-- Whitespace as stripped by `str.strip()` and matched by `\s`. -/
def isPySpace (c : Char) : Bool :=
  c == ' ' || c == '\t' || c == '\n' || c == '\r' || c == '\x0b' || c == '\x0c'

/-- Python `s.strip()`: drop leading and trailing whitespace. -/
def pyStrip (s : List Char) : List Char :=
  ((s.dropWhile isPySpace).reverse.dropWhile isPySpace).reverse

/-- The regex classes `A-Z` / `a-z` (code points 65-90 and 97-122). -/
def isAsciiAlpha (c : Char) : Bool :=
  (65 ≤ c.toNat && c.toNat ≤ 90) || (97 ≤ c.toNat && c.toNat ≤ 122)

/-- The regex class `\d` on ASCII input: `0-9` (code points 48-57). -/
def isDigitChar (c : Char) : Bool :=
  48 ≤ c.toNat && c.toNat ≤ 57

/-- `Validators.validate_name`: `re.fullmatch(r'^[A-Za-z\s]{2,50}$', name.strip())`. -/
def validate_name (name : String) : Bool :=
  let t := pyStrip name.toList
  decide (2 ≤ t.length) && decide (t.length ≤ 50)
    && t.all (fun c => isAsciiAlpha c || isPySpace c)

/-- `Validators.validate_phone`: `re.fullmatch(r'^\+?\d{10,15}$', phone.strip())`. -/
def validate_phone (phone : String) : Bool :=
  let t := pyStrip phone.toList
  match t with
  | '+' :: r => decide (10 ≤ r.length) && decide (r.length ≤ 15) && r.all isDigitChar
  | r => decide (10 ≤ r.length) && decide (r.length ≤ 15) && r.all isDigitChar

def isLocalChar (c : Char) : Bool :=
  isAsciiAlpha c || isDigitChar c || c == '.' || c == '_' || c == '%' || c == '+' || c == '-'

def isDomainChar (c : Char) : Bool :=
  isAsciiAlpha c || isDigitChar c || c == '.' || c == '-'

/-- Matchability of `[a-zA-Z0-9.-]+\.[a-zA-Z]{2,}` against the whole list:
some dot splits it into a nonempty domain run and a final run of at least
two letters. -/
def matchDomainTld (t : List Char) : Bool :=
  (List.range t.length).any (fun i =>
    (t.get? i == some '.') && decide (1 ≤ i) && (t.take i).all isDomainChar
      && decide (i + 3 ≤ t.length) && (t.drop (i + 1)).all isAsciiAlpha)

/-- `Validators.validate_email`:
`re.fullmatch(r'^[a-zA-Z0-9._%+-]+@[a-zA-Z0-9.-]+\.[a-zA-Z]{2,}$', email.strip())`.
Since no character class contains `@`, full-match ability is equivalent to
some split at an `@` with both sides matching. -/
def validate_email (email : String) : Bool :=
  let t := pyStrip email.toList
  (List.range t.length).any (fun i =>
    (t.get? i == some '@') && decide (1 ≤ i) && (t.take i).all isLocalChar
      && matchDomainTld (t.drop (i + 1)))

/-! ### Python numeric string conversion

`validate_price` is `float(price) >= 0` and `validate_quantity` is
`int(quantity) > 0`, each with `ValueError` caught and turned into `False`.
The conversions are modelled after CPython's base-10 `int()` and `float()`
string grammars on ASCII input: optional surrounding whitespace, optional
sign, digit runs that may contain single underscores between digits, and
for `float()` an optional fraction, an optional exponent, and the literals
`inf` / `infinity` / `nan` (case-insensitive). -/

/-- Continuation of a digit run: digits, with each underscore directly
between two digits. -/
def digitsUAfter : List Char → Bool
  | [] => true
  | c :: rest =>
    if c = '_' then
      match rest with
      | c2 :: r2 => isDigitChar c2 && digitsUAfter r2
      | [] => false
    else isDigitChar c && digitsUAfter rest

/-- A valid digit run: nonempty, starts and ends with a digit, underscores
only between digits. -/
def digitsU (l : List Char) : Bool :=
  match l with
  | [] => false
  | c :: rest => isDigitChar c && digitsUAfter rest

def stripUnderscores (l : List Char) : List Char :=
  l.filter (fun c => !(c == '_'))

def digitVal (c : Char) : Nat := c.toNat - '0'.toNat

def natOfDigits (l : List Char) : Nat :=
  l.foldl (fun acc c => 10 * acc + digitVal c) 0

/-- Python `int(s)` on a base-10 `str` (ASCII model). -/
def pyIntParse (s : String) : Option Int :=
  let t := pyStrip s.toList
  match t with
  | '+' :: r => if digitsU r then some ((natOfDigits (stripUnderscores r) : Int)) else none
  | '-' :: r => if digitsU r then some (-(natOfDigits (stripUnderscores r) : Int)) else none
  | r => if digitsU r then some ((natOfDigits (stripUnderscores r) : Int)) else none

/-- `Validators.validate_quantity` (bookstore_final.py:208):
`int(quantity) > 0`, with `ValueError` turned into `False`. -/
def validate_quantity (quantity : String) : Bool :=
  match pyIntParse quantity with
  | some n => decide (0 < n)
  | none => false

/-- The result of a successful Python `float(s)`.  A finite result is kept
in exact decimal form, `value = num * 10 ^ exp10`, from which the
comparison against `0` after IEEE-754 rounding is decided (see
`pyFloatGeZero`). -/
inductive PyFloat where
  | finite (num : Int) (exp10 : Int)
  | pinf
  | ninf
  | nan
  deriving DecidableEq, Repr

/-- The Python comparison `float(price) >= 0.0`.  `float(s)` rounds the
exact decimal value `v = num * 10 ^ exp10` to the nearest binary64 double
(round half to even) before the comparison, and IEEE-754 comparison treats
`-0.0 >= 0` as true.  The rounded double is `>= 0` — positive, `+0.0` or
`-0.0` — exactly when `v ≥ -2 ^ (-1075)`: a negative magnitude up to half
the smallest subnormal `2 ^ (-1074)` rounds to `-0.0` (the tie at exactly
`2 ^ (-1075)` goes to the even significand, `0`), anything below rounds to
a negative double; on the positive side every value rounds to `+0.0`, a
positive double, or `+inf`, all `>= 0`.  For `exp10 ≥ 0` the condition is
`0 ≤ num` (a negative integer scaled up is at most `-1`); for `exp10 < 0`
it is multiplied through by the positive `10 ^ (-exp10) * 2 ^ 1075` to
stay in integer arithmetic — `pyFloatGeZero_finite_iff` proves this equal
to the rational-threshold form.  `inf >= 0` holds, `-inf >= 0` and
`nan >= 0` do not. -/
def pyFloatGeZero : PyFloat → Bool
  | .finite num exp10 =>
    if 0 ≤ exp10 then decide (0 ≤ num)
    else decide (-(((10 : Nat) ^ (-exp10).toNat : Nat) : Int)
          ≤ num * (((2 : Nat) ^ 1075 : Nat) : Int))
  | .pinf => true
  | .ninf => false
  | .nan => false

def negFloat : PyFloat → PyFloat
  | .finite num e => .finite (-num) e
  | .pinf => .ninf
  | .ninf => .pinf
  | .nan => .nan

/-- Split at the first exponent marker `e`/`E`, if any. -/
def splitAtExp : List Char → List Char × Option (List Char)
  | [] => ([], none)
  | c :: rest =>
    if c == 'e' || c == 'E' then ([], some rest)
    else
      let p := splitAtExp rest
      (c :: p.1, p.2)

/-- Split at the first `.`, if any. -/
def splitAtDot : List Char → Option (List Char × List Char)
  | [] => none
  | c :: rest =>
    if c = '.' then some ([], rest)
    else (splitAtDot rest).map (fun p => (c :: p.1, p.2))

/-- Mantissa of a float numeral: `digits`, `digits.`, `digits.digits` or
`.digits` (underscored runs allowed).  Returns the digit value with the
number of fraction digits. -/
def parseMantissa (l : List Char) : Option (Nat × Nat) :=
  match splitAtDot l with
  | none => if digitsU l then some (natOfDigits (stripUnderscores l), 0) else none
  | some (ip, fp) =>
    if ip.isEmpty then
      if digitsU fp then
        some (natOfDigits (stripUnderscores fp), (stripUnderscores fp).length)
      else none
    else if digitsU ip then
      if fp.isEmpty then some (natOfDigits (stripUnderscores ip), 0)
      else if digitsU fp then
        some (natOfDigits (stripUnderscores ip ++ stripUnderscores fp),
              (stripUnderscores fp).length)
      else none
    else none

/-- Exponent part after `e`/`E`: optional sign, then a digit run. -/
def parseExpPart (l : List Char) : Option Int :=
  match l with
  | '+' :: r => if digitsU r then some ((natOfDigits (stripUnderscores r) : Int)) else none
  | '-' :: r => if digitsU r then some (-(natOfDigits (stripUnderscores r) : Int)) else none
  | r => if digitsU r then some ((natOfDigits (stripUnderscores r) : Int)) else none

/-- A float numeral (no sign): mantissa with optional exponent. -/
def parseNumeral (l : List Char) : Option PyFloat :=
  match splitAtExp l with
  | (m, none) => (parseMantissa m).map (fun p => .finite (p.1 : Int) (-(p.2 : Int)))
  | (m, some e) =>
    match parseMantissa m, parseExpPart e with
    | some p, some ex => some (.finite (p.1 : Int) (ex - (p.2 : Int)))
    | _, _ => none

/-- Body of a Python float string after the optional sign. -/
def parseFloatBody (l : List Char) : Option PyFloat :=
  let low := l.map Char.toLower
  if low == "inf".toList || low == "infinity".toList then some .pinf
  else if low == "nan".toList then some .nan
  else parseNumeral l

/-- Python `float(s)` on a `str` (ASCII model). -/
def pyFloatParse (s : String) : Option PyFloat :=
  match pyStrip s.toList with
  | [] => parseFloatBody []
  | c :: r =>
    if c = '+' then parseFloatBody r
    else if c = '-' then (parseFloatBody r).map negFloat
    else parseFloatBody (c :: r)

/-- `Validators.validate_price` (bookstore_final.py:201):
`float(price) >= 0`, with `ValueError` turned into `False`. -/
def validate_price (price : String) : Bool :=
  match pyFloatParse price with
  | some v => pyFloatGeZero v
  | none => false

/-- A nonempty run of plain digits. -/
def allDigits (l : List Char) : Bool :=
  !l.isEmpty && l.all isDigitChar

/-- Exact value of a plain (underscore-free, exponent-free) decimal
numeral `digits`, `digits.`, `digits.digits` or `.digits`. -/
def plainDecimalVal (l : List Char) : Option ℚ :=
  match splitAtDot l with
  | none => if allDigits l then some ((natOfDigits l : ℚ)) else none
  | some (ip, fp) =>
    if ip.isEmpty && fp.isEmpty then none
    else if (ip.isEmpty || allDigits ip) && (fp.isEmpty || allDigits fp) then
      some ((natOfDigits ip : ℚ) + (natOfDigits fp : ℚ) / (10 : ℚ) ^ fp.length)
    else none

/-- Specification-side reading of "`s` parses to a non-negative decimal
number": after optional surrounding whitespace and an optional sign, the
rest is a plain decimal numeral — digit runs around an optional decimal
point, with no exponent, no underscores and no infinity — whose value is
nonnegative.  An unsigned plain numeral always has a nonnegative value, so
the value is nonnegative iff the sign is not minus or the value is zero. -/
def specNonNegDecimal (s : String) : Bool :=
  match pyStrip s.toList with
  | [] => false
  | c :: r =>
    if c = '+' then (plainDecimalVal r).isSome
    else if c = '-' then
      match plainDecimalVal r with
      | some q => decide (q = 0)
      | none => false
    else (plainDecimalVal (c :: r)).isSome

/-- Python `s.strip()` as a `String`-level operation. -/
def pyStripString (s : String) : String :=
  String.mk (pyStrip s.toList)

/-! ### The store as a transition system

The store-mutating operations modelled above, packaged as a step relation:
an action either succeeds (the transaction commits, producing the new
store) or fails (the transaction rolls back, leaving the store as it was).
`add_to_cart` is absent because it never touches the store. -/

/-- The current status of an order, if it exists. -/
def orderStatus (st : Store) (oid : Nat) : Option Status :=
  (findOrder st oid).map Order.status

/-- A store-mutating operation invocation. -/
inductive Act where
  | placeOrder (cart : List CartLine) (customerID staffID : Nat) (status : Status)
  | updateStatus (orderID : Nat) (newStatus : Status)
  | deleteBook (bookID : Nat)
  | deleteStaff (currentStaffID targetStaffID : Nat)
  deriving DecidableEq, Repr

def applyAct (st : Store) : Act → Except Err Store
  | .placeOrder cart cid sid status => place_order st cart cid sid status
  | .updateStatus oid ns => update_order_status st oid ns
  | .deleteBook bid => delete_selected_book st bid
  | .deleteStaff cur tgt => delete_staff st cur tgt

def isOkStore (r : Except Err Store) : Bool :=
  match r with
  | .ok _ => true
  | .error _ => false

/-- Run one action: on failure the transaction rolls back and the store is
unchanged. -/
def stepStore (st : Store) (a : Act) : Store :=
  match applyAct st a with
  | .ok st2 => st2
  | .error _ => st

/-- Whether this step performs the stock decrements on behalf of order
`oid`: either the step creates order `oid` directly as Completed, or it
completes the pending order `oid`; in both cases the step must succeed
(a rolled-back transaction decrements nothing). -/
def decrementsFor (st : Store) (a : Act) (oid : Nat) : Bool :=
  match a with
  | .placeOrder _ _ _ status =>
    (oid == st.nextOrderID) && (status == Status.Completed) && isOkStore (applyAct st a)
  | .updateStatus oid2 ns =>
    (oid2 == oid) && (ns == Status.Completed)
      && (orderStatus st oid == some Status.Pending) && isOkStore (applyAct st a)
  | .deleteBook _ => false
  | .deleteStaff _ _ => false

/-- How many steps of the trace decrement stock on behalf of order `oid`. -/
def decrementEvents : Store → List Act → Nat → Nat
  | _, [], _ => 0
  | st, a :: rest, oid =>
    (if decrementsFor st a oid then 1 else 0) + decrementEvents (stepStore st a) rest oid

/-- AUTO_INCREMENT well-formedness: every existing order id is below the
next id the store will hand out. -/
def ordersWF (st : Store) : Prop :=
  ∀ o ∈ st.orders, o.orderID < st.nextOrderID

/-- `Books.BookID` is the primary key: book ids are pairwise distinct. -/
def booksWF (st : Store) : Prop :=
  (st.books.map Book.bookID).Nodup

/-- `Staff.StaffID` is the primary key: staff ids are pairwise distinct. -/
def staffWF (staff : List Staff) : Prop :=
  (staff.map Staff.staffID).Nodup

/-! ### Concrete example stores (used to instantiate the theorems) -/

/-- A small store: one Manager (id 1), one Clerk (id 2), one book (id 7,
stock 5, price 12.50), one customer account (id 2). -/
def egStore : Store :=
  { staff := [⟨1, "Ann", Role.Manager, "ann@x.com", "0000000000"⟩,
              ⟨2, "Bob", Role.Clerk, "bob@x.com", "0000000001"⟩],
    books := [⟨7, "Dune", "SciFi", 5, "Herbert", "Ace", 1250, 1⟩],
    accounts := [⟨2, "Cleo", "1234567890", none, false⟩],
    orders := [], orderItems := [], bookLog := [], nextOrderID := 10 }

/-- `egStore` after committing a two-copy order of book 7 as Pending. -/
def egStorePending : Store :=
  { egStore with
    orders := [⟨10, 2, 1, 2500, Status.Pending⟩],
    orderItems := [⟨10, 7, 2, 1250⟩],
    nextOrderID := 11 }

/-- `egStorePending` with the order already Completed. -/
def egStoreCompleted : Store :=
  { egStorePending with orders := [⟨10, 2, 1, 2500, Status.Completed⟩] }

/-- A store whose only staff member is a Clerk: no Manager exists. -/
def egStoreClerkOnly : Store :=
  { egStore with staff := [⟨2, "Bob", Role.Clerk, "bob@x.com", "0000000001"⟩] }

/-! ## Helper lemmas -/

theorem toList_mk (l : List Char) : (String.mk l).toList = l := rfl

theorem pyStrip_eq_rdropWhile (l : List Char) :
    pyStrip l = List.rdropWhile isPySpace (l.dropWhile isPySpace) := rfl

theorem pyStrip_idem (l : List Char) : pyStrip (pyStrip l) = pyStrip l := by
  have hpre := List.rdropWhile_prefix isPySpace (l.dropWhile isPySpace)
  have hdropB : (pyStrip l).dropWhile isPySpace = pyStrip l := by
    rw [pyStrip_eq_rdropWhile]
    cases hBc : List.rdropWhile isPySpace (l.dropWhile isPySpace) with
    | nil => simp
    | cons c cs =>
      apply List.dropWhile_cons_of_neg
      obtain ⟨t, ht⟩ := hpre
      rw [hBc] at ht
      have hhead := List.head?_dropWhile_not isPySpace l
      have hc : (l.dropWhile isPySpace).head? = some c := by
        rw [← ht]; simp
      rw [hc] at hhead
      simp only [] at hhead
      simp [hhead]
  calc pyStrip (pyStrip l)
      = List.rdropWhile isPySpace ((pyStrip l).dropWhile isPySpace) := rfl
    _ = List.rdropWhile isPySpace (pyStrip l) := by rw [hdropB]
    _ = pyStrip l := by
        rw [pyStrip_eq_rdropWhile]
        exact List.rdropWhile_idempotent _ _

theorem findOrder_dest {st : Store} {oid : Nat} {o : Order}
    (h : findOrder st oid = some o) : o ∈ st.orders ∧ o.orderID = oid := by
  unfold findOrder at h
  exact ⟨List.mem_of_find?_eq_some h, by simpa using List.find?_some h⟩

theorem findBook_dest {st : Store} {bid : Nat} {b : Book}
    (h : findBook st bid = some b) : b ∈ st.books ∧ b.bookID = bid := by
  unfold findBook at h
  exact ⟨List.mem_of_find?_eq_some h, by simpa using List.find?_some h⟩

theorem find?_setOrderStatus_self {orders : List Order} {oid : Nat} {o : Order}
    (s : Status) (h : orders.find? (fun x => x.orderID == oid) = some o) :
    (setOrderStatus orders oid s).find? (fun x => x.orderID == oid)
      = some { o with status := s } := by
  induction orders with
  | nil => simp at h
  | cons x xs ih =>
    simp only [setOrderStatus, List.map_cons]
    by_cases hx : x.orderID = oid
    · have hxb : (x.orderID == oid) = true := by simpa using hx
      simp only [List.find?_cons, hxb, Option.some.injEq] at h
      subst h
      rw [if_pos hxb]
      refine List.find?_cons_of_pos _ ?_
      simpa using hx
    · have hxf : (x.orderID == oid) = false := by simpa using hx
      simp only [List.find?_cons, hxf] at h
      rw [if_neg (by simp [hxf])]
      simp only [List.find?_cons, hxf]
      exact ih h

theorem find?_setOrderStatus_ne {orders : List Order} {oid oid2 : Nat}
    (s : Status) (hne : oid2 ≠ oid) :
    (setOrderStatus orders oid2 s).find? (fun x => x.orderID == oid)
      = orders.find? (fun x => x.orderID == oid) := by
  induction orders with
  | nil => simp [setOrderStatus]
  | cons x xs ih =>
    simp only [setOrderStatus, List.map_cons]
    by_cases hx : x.orderID = oid2
    · have hxo : (x.orderID == oid) = false := by
        simp only [beq_eq_false_iff_ne, ne_eq, hx]
        exact hne
      have hxb : (x.orderID == oid2) = true := by simpa using hx
      rw [if_pos hxb]
      simp only [List.find?_cons, hxo]
      exact ih
    · have hxb : ¬ (x.orderID == oid2) = true := by simpa using hx
      rw [if_neg hxb]
      simp only [List.find?_cons]
      cases hxo : (x.orderID == oid) with
      | true => rfl
      | false => exact ih

/-- A successful `UPDATE Books ... WHERE BookID = bid` under the check
constraint: no matching row would go negative. -/
theorem decrementBook_ok {books : List Book} {bid : Nat} {q : Int}
    (h : ∀ b ∈ books, b.bookID = bid → 0 ≤ b.quantity - q) :
    decrementBook books bid q
      = .ok (books.map (fun x =>
          if x.bookID == bid then { x with quantity := x.quantity - q } else x)) := by
  unfold decrementBook
  rw [if_neg]
  simp only [List.any_eq_true, Bool.and_eq_true, beq_iff_eq, decide_eq_true_eq, not_exists,
    not_and]
  intro b hb hid
  intro hlt
  exact absurd hlt (not_lt.mpr (h b hb hid))

/-- A failing `UPDATE Books ...`: some matching row would go negative, the
statement aborts. -/
theorem decrementBook_error {books : List Book} {bid : Nat} {q : Int} {b : Book}
    (hb : b ∈ books) (hid : b.bookID = bid) (hneg : b.quantity - q < 0) :
    decrementBook books bid q = .error .insufficientStock := by
  unfold decrementBook
  rw [if_pos]
  simp only [List.any_eq_true, Bool.and_eq_true, beq_iff_eq, decide_eq_true_eq]
  exact ⟨b, hb, hid, hneg⟩

theorem find?_decrementMap {books : List Book} {bid : Nat} {b : Book} (q : Int)
    (h : books.find? (fun x => x.bookID == bid) = some b) :
    (books.map (fun x =>
        if x.bookID == bid then { x with quantity := x.quantity - q } else x)).find?
      (fun x => x.bookID == bid) = some { b with quantity := b.quantity - q } := by
  induction books with
  | nil => simp at h
  | cons x xs ih =>
    simp only [List.map_cons]
    by_cases hx : x.bookID = bid
    · have hxb : (x.bookID == bid) = true := by simpa using hx
      simp only [List.find?_cons, hxb, Option.some.injEq] at h
      subst h
      rw [if_pos hxb]
      refine List.find?_cons_of_pos _ ?_
      simpa using hx
    · have hxf : (x.bookID == bid) = false := by simpa using hx
      simp only [List.find?_cons, hxf] at h
      rw [if_neg (by simp [hxf])]
      simp only [List.find?_cons, hxf]
      exact ih h

/-- The per-line loop of `place_order` touches only `orderItems` and
`books`. -/
theorem insertItems_frame {status : Status} {oid : Nat} {cart : List CartLine}
    {st st2 : Store} (h : insertItemsAndDecrement status oid cart st = .ok st2) :
    st2.orders = st.orders ∧ st2.nextOrderID = st.nextOrderID
      ∧ st2.staff = st.staff ∧ st2.accounts = st.accounts
      ∧ st2.bookLog = st.bookLog := by
  induction cart generalizing st with
  | nil =>
    unfold insertItemsAndDecrement at h
    cases h
    exact ⟨rfl, rfl, rfl, rfl, rfl⟩
  | cons l ls ih =>
    unfold insertItemsAndDecrement at h
    by_cases hex : bookRowExists st.books l.bookID
    · rw [if_pos hex] at h
      cases hdec : (if status = Status.Completed then
          decrementBook st.books l.bookID l.quantity else Except.ok st.books) with
      | ok books2 =>
        rw [hdec] at h
        dsimp only at h
        have := ih h
        exact this
      | error e => rw [hdec] at h; simp at h
    · rw [if_neg hex] at h
      simp at h

/-- The per-line loop appends exactly one OrderItems row per cart line. -/
theorem insertItems_items {status : Status} {oid : Nat} {cart : List CartLine}
    {st st2 : Store} (h : insertItemsAndDecrement status oid cart st = .ok st2) :
    st2.orderItems = st.orderItems
      ++ cart.map (fun l => OrderItem.mk oid l.bookID l.quantity l.price) := by
  induction cart generalizing st with
  | nil =>
    unfold insertItemsAndDecrement at h
    cases h
    simp
  | cons l ls ih =>
    unfold insertItemsAndDecrement at h
    by_cases hex : bookRowExists st.books l.bookID
    · rw [if_pos hex] at h
      cases hdec : (if status = Status.Completed then
          decrementBook st.books l.bookID l.quantity else Except.ok st.books) with
      | ok books2 =>
        rw [hdec] at h
        dsimp only at h
        have := ih h
        simpa using this
      | error e => rw [hdec] at h; simp at h
    · rw [if_neg hex] at h
      simp at h

/-- Destructuring a successful `place_order`: the Orders row carries the
snapshotted cart total, one OrderItems row is appended per cart line, and
nothing else but `books` changes. -/
theorem place_order_ok_dest {st : Store} {cart : List CartLine}
    {cid sid : Nat} {status : Status} {st2 : Store}
    (h : place_order st cart cid sid status = .ok st2) :
    st2.orders = st.orders ++ [Order.mk st.nextOrderID cid sid (cartTotal cart) status]
      ∧ st2.nextOrderID = st.nextOrderID + 1
      ∧ st2.orderItems = st.orderItems
          ++ cart.map (fun l => OrderItem.mk st.nextOrderID l.bookID l.quantity l.price)
      ∧ st2.staff = st.staff ∧ st2.accounts = st.accounts ∧ st2.bookLog = st.bookLog := by
  unfold place_order at h
  by_cases hempty : cart.isEmpty = true
  · rw [if_pos hempty] at h; simp at h
  · rw [if_neg hempty] at h
    by_cases hacct : accountExists st cid = true
    · rw [if_pos hacct] at h
      by_cases hstaff : staffExists st sid = true
      · rw [if_pos hstaff] at h
        have hframe := insertItems_frame h
        have hitems := insertItems_items h
        obtain ⟨ho, hn, hs, ha, hl⟩ := hframe
        refine ⟨?_, ?_, ?_, ?_, ?_, ?_⟩ <;> simp_all
      · rw [if_neg hstaff] at h; simp at h
    · rw [if_neg hacct] at h; simp at h

/-! ## Claims -/

/-- C10: each of the string validators (name, phone, email) strips the
input before matching, so for every string `s` the validator agrees on `s`
and on `strip(s)`: inputs differing only in surrounding whitespace validate
identically. -/
theorem validators_strip_insensitive (s : String) :
    validate_name s = validate_name (pyStripString s)
      ∧ validate_phone s = validate_phone (pyStripString s)
      ∧ validate_email s = validate_email (pyStripString s) := by
  have h : (pyStripString s).toList = pyStrip s.toList := rfl
  refine ⟨?_, ?_, ?_⟩ <;>
    simp only [validate_name, validate_phone, validate_email, h, pyStrip_idem]

/-- C9: staff deletion refuses to delete the currently logged-in staff
member — whatever their role and however many Managers exist — and the
store is not mutated (the operation fails before any DELETE is issued). -/
theorem delete_staff_self_guard (st : Store) (sid : Nat) :
    delete_staff st sid sid = .error .selfDelete := by
  simp [delete_staff]

/-- C4: cancelling a Pending order (update_order_status to Cancelled)
succeeds, sets the order's status to Cancelled, and leaves every book's
stock — in fact the whole Books table — unchanged, regardless of the
order's line quantities. -/
theorem cancel_pending_frame (st : Store) (oid : Nat) (o : Order)
    (h : findOrder st oid = some o) (hp : o.status = Status.Pending) :
    ∃ st2, update_order_status st oid Status.Cancelled = .ok st2
      ∧ st2.books = st.books
      ∧ orderStatus st2 oid = some Status.Cancelled
      ∧ st2.orderItems = st.orderItems
      ∧ st2.staff = st.staff ∧ st2.accounts = st.accounts := by
  refine ⟨{ st with orders := setOrderStatus st.orders oid Status.Cancelled },
    ?_, rfl, ?_, rfl, rfl, rfl⟩
  · simp only [update_order_status, h]
    rw [if_pos hp]
    simp
  · unfold findOrder at h
    simp only [orderStatus, findOrder]
    rw [find?_setOrderStatus_self Status.Cancelled h]
    rfl

/-- Witness for C4 at a concrete store: a Pending two-copy order of book 7
is cancelled; the Books table is untouched. -/
theorem cancel_pending_frame_witness :
    ∃ st2, update_order_status egStorePending 10 Status.Cancelled = .ok st2
      ∧ st2.books = egStorePending.books
      ∧ orderStatus st2 10 = some Status.Cancelled
      ∧ st2.orderItems = egStorePending.orderItems
      ∧ st2.staff = egStorePending.staff ∧ st2.accounts = egStorePending.accounts :=
  cancel_pending_frame egStorePending 10 (Order.mk 10 2 1 2500 Status.Pending)
    (by decide) (by decide)

/-- C7: `add_to_cart` requires a positive quantity, reads unit price and
availability from the current store, rejects with InsufficientStock when
the requested quantity exceeds current stock, and on success appends one
line carrying the unit price snapshotted now; at commit time the order
total is the sum of the snapshotted subtotals, whatever the catalog prices
are in the store the commit runs against. -/
theorem add_to_cart_spec :
    (∀ (st : Store) (cart : List CartLine) (bid : Nat) (q : Int),
      q ≤ 0 → add_to_cart st cart bid q = .error .quantityNotPositive)
    ∧ (∀ (st : Store) (cart : List CartLine) (bid : Nat) (q : Int) (b : Book),
      findBook st bid = some b → 0 < q → b.quantity < q →
        add_to_cart st cart bid q = .error .insufficientStock)
    ∧ (∀ (st : Store) (cart : List CartLine) (bid : Nat) (q : Int) (b : Book),
      findBook st bid = some b → 0 < q → q ≤ b.quantity →
        add_to_cart st cart bid q
          = .ok (cart ++ [CartLine.mk bid b.bookName q b.price (b.price * q)]))
    ∧ (∀ (st2 : Store) (cart : List CartLine) (cid sid : Nat) (status : Status)
        (st3 : Store),
      place_order st2 cart cid sid status = .ok st3 →
        st3.orders = st2.orders
          ++ [Order.mk st2.nextOrderID cid sid (cartTotal cart) status]) := by
  refine ⟨?_, ?_, ?_, ?_⟩
  · intro st cart bid q hq
    unfold add_to_cart
    rw [if_pos hq]
  · intro st cart bid q b hb hq hlt
    unfold add_to_cart
    rw [if_neg (not_le.mpr hq)]
    simp only [hb]
    rw [if_pos hlt]
  · intro st cart bid q b hb hq hle
    unfold add_to_cart
    rw [if_neg (not_le.mpr hq)]
    simp only [hb]
    rw [if_neg (not_lt.mpr hle)]
  · intro st2 cart cid sid status st3 h
    exact (place_order_ok_dest h).1

/-- Witness for C7 at concrete inputs: quantity 0 is rejected; 6 copies of
a 5-stock book are rejected; 3 copies are added with the 12.50 price
snapshot; committing that cart records total 37.50. -/
theorem add_to_cart_spec_witness :
    add_to_cart egStore [] 7 0 = .error .quantityNotPositive
      ∧ add_to_cart egStore [] 7 6 = .error .insufficientStock
      ∧ add_to_cart egStore [] 7 3
          = .ok [CartLine.mk 7 "Dune" 3 1250 (1250 * 3)]
      ∧ ∀ st3, place_order egStore [CartLine.mk 7 "Dune" 3 1250 3750] 2 1
            Status.Completed = .ok st3 →
          st3.orders = egStore.orders
            ++ [Order.mk egStore.nextOrderID 2 1
                  (cartTotal [CartLine.mk 7 "Dune" 3 1250 3750]) Status.Completed] :=
  ⟨add_to_cart_spec.1 egStore [] 7 0 (by decide),
   add_to_cart_spec.2.1 egStore [] 7 6 (Book.mk 7 "Dune" "SciFi" 5 "Herbert" "Ace" 1250 1)
     (by decide) (by decide) (by decide),
   add_to_cart_spec.2.2.1 egStore [] 7 3 (Book.mk 7 "Dune" "SciFi" 5 "Herbert" "Ace" 1250 1)
     (by decide) (by decide) (by decide),
   fun st3 h => add_to_cart_spec.2.2.2 egStore _ 2 1 Status.Completed st3 h⟩

theorem bookRowExists_of_find {st : Store} {bid : Nat} {b : Book}
    (h : findBook st bid = some b) : bookRowExists st.books bid = true := by
  obtain ⟨hm, hid⟩ := findBook_dest h
  unfold bookRowExists
  simp only [List.any_eq_true]
  exact ⟨b, hm, by simpa using hid⟩

theorem books_unique {st : Store} (hwf : booksWF st) {b b2 : Book}
    (h1 : b ∈ st.books) (h2 : b2 ∈ st.books) (hid : b.bookID = b2.bookID) :
    b = b2 :=
  List.inj_on_of_nodup_map hwf h1 h2 hid

theorem decrementBook_ok_eq {books : List Book} {bid : Nat} {q : Int}
    {books2 : List Book} (h : decrementBook books bid q = .ok books2) :
    books2 = books.map (fun x =>
      if x.bookID == bid then { x with quantity := x.quantity - q } else x) := by
  unfold decrementBook at h
  by_cases hany :
      (books.any fun b => b.bookID == bid && decide (b.quantity - q < 0)) = true
  · rw [if_pos hany] at h; simp at h
  · rw [if_neg hany] at h
    simpa using h.symm

theorem decrementBook_error_eq {books : List Book} {bid : Nat} {q : Int}
    {e : Err} (h : decrementBook books bid q = .error e) :
    e = Err.insufficientStock := by
  unfold decrementBook at h
  by_cases hany :
      (books.any fun b => b.bookID == bid && decide (b.quantity - q < 0)) = true
  · rw [if_pos hany] at h
    simpa using h.symm
  · rw [if_neg hany] at h; simp at h

theorem bookRowExists_decrementMap (books : List Book) (bid2 bid : Nat) (q : Int) :
    bookRowExists (books.map (fun x =>
        if x.bookID == bid then { x with quantity := x.quantity - q } else x)) bid2
      = bookRowExists books bid2 := by
  unfold bookRowExists
  rw [List.any_map]
  congr 1
  funext x
  by_cases hx : (x.bookID == bid) = true <;> simp [hx, Function.comp]

/-- If some cart line asks for more than the current stock of its book,
the Completed-order loop aborts with the check-constraint failure — no
matter where in the cart the offending line sits. -/
theorem insertItems_insufficient (oid : Nat) (cart : List CartLine) (st : Store)
    (hpos : ∀ m ∈ cart, 0 < m.quantity)
    (hbooks : ∀ m ∈ cart, bookRowExists st.books m.bookID = true)
    (hex : ∃ l ∈ cart, ∃ b ∈ st.books, b.bookID = l.bookID ∧ b.quantity < l.quantity) :
    insertItemsAndDecrement Status.Completed oid cart st
      = .error .insufficientStock := by
  induction cart generalizing st with
  | nil => simp at hex
  | cons m ms ih =>
    unfold insertItemsAndDecrement
    rw [if_pos (hbooks m (List.mem_cons_self m ms))]
    rw [if_pos rfl]
    rcases hex with ⟨l, hl, b, hbmem, hid, hlt⟩
    rcases List.mem_cons.mp hl with rfl | hl2
    · rw [decrementBook_error hbmem hid (by omega)]
    · cases hdec : decrementBook st.books m.bookID m.quantity with
      | error e =>
        dsimp only
        rw [decrementBook_error_eq hdec]
      | ok books2 =>
        dsimp only
        have hb2 := decrementBook_ok_eq hdec
        subst hb2
        apply ih
        · intro x hx; exact hpos x (List.mem_cons_of_mem _ hx)
        · intro x hx
          dsimp only
          rw [bookRowExists_decrementMap]
          exact hbooks x (List.mem_cons_of_mem _ hx)
        · refine ⟨l, hl2, ?_⟩
          refine ⟨(if (b.bookID == m.bookID) = true then
              { b with quantity := b.quantity - m.quantity } else b), ?_, ?_, ?_⟩
          · exact List.mem_map_of_mem _ hbmem
          · split <;> simpa using hid
          · have hmq : 0 < m.quantity := hpos m (List.mem_cons_self m ms)
            split
            · dsimp only
              omega
            · omega

/-- C2: if any cart line requests more copies than the current stock of an
existing book (quantities positive, every line's book existing — as every
cart assembled through `add_to_cart` satisfies), committing the cart as
Completed fails with InsufficientStock: the `CHECK (Quantity >= 0)`
re-check aborts the single transaction, which rolls back in full —
the `.error` result means the caller's store is unchanged, so stock stays
at S and no Order row and no OrderItem rows are created, partial ones
included. -/
theorem place_order_insufficient (st : Store) (cart : List CartLine)
    (cid sid : Nat)
    (hpos : ∀ m ∈ cart, 0 < m.quantity)
    (hbooks : ∀ m ∈ cart, bookRowExists st.books m.bookID = true)
    (hex : ∃ l ∈ cart, ∃ b ∈ st.books, b.bookID = l.bookID ∧ b.quantity < l.quantity)
    (hacct : accountExists st cid = true) (hstaff : staffExists st sid = true) :
    place_order st cart cid sid Status.Completed = .error .insufficientStock := by
  obtain ⟨l, hl, hwit⟩ := hex
  unfold place_order
  rw [if_neg (by simp [List.isEmpty_iff]; exact List.ne_nil_of_mem hl)]
  rw [if_pos hacct, if_pos hstaff]
  exact insertItems_insufficient _ _ _ hpos hbooks ⟨l, hl, hwit⟩

/-- Witness for C2: committing 10 copies against stock 5 aborts with
InsufficientStock. -/
theorem place_order_insufficient_witness :
    place_order egStore [CartLine.mk 7 "Dune" 10 1250 12500] 2 1
      Status.Completed = .error .insufficientStock :=
  place_order_insufficient egStore [CartLine.mk 7 "Dune" 10 1250 12500] 2 1
    (by decide) (by decide)
    ⟨CartLine.mk 7 "Dune" 10 1250 12500, by decide,
      Book.mk 7 "Dune" "SciFi" 5 "Herbert" "Ace" 1250 1, by decide, by decide⟩
    (by decide) (by decide)

/-- C1: for a book with stock `S = b.quantity` and a cart holding the
single line produced by `add_to_cart` for quantity `Q ≤ S`, committing as
Completed succeeds, leaves that book's stock at `S - Q`, creates exactly
one OrderItem row with quantity `Q`, and records the order's TotalAmount as
`unit price at add time × Q`. -/
theorem place_order_completed_single (st : Store) (bid : Nat) (Q : Int)
    (b : Book) (cart : List CartLine) (cid sid : Nat)
    (hwf : booksWF st)
    (hb : findBook st bid = some b)
    (hcart : add_to_cart st [] bid Q = .ok cart)
    (hQS : Q ≤ b.quantity)
    (hacct : accountExists st cid = true)
    (hstaff : staffExists st sid = true) :
    ∃ st2, place_order st cart cid sid Status.Completed = .ok st2
      ∧ findBook st2 bid = some { b with quantity := b.quantity - Q }
      ∧ st2.orderItems = st.orderItems ++ [OrderItem.mk st.nextOrderID bid Q b.price]
      ∧ st2.orders = st.orders
          ++ [Order.mk st.nextOrderID cid sid (b.price * Q) Status.Completed] := by
  -- extract the cart line from the add_to_cart run
  unfold add_to_cart at hcart
  by_cases hq : Q ≤ 0
  · rw [if_pos hq] at hcart; simp at hcart
  · rw [if_neg hq] at hcart
    simp only [hb] at hcart
    by_cases hgt : Q > b.quantity
    · rw [if_pos hgt] at hcart; simp at hcart
    · rw [if_neg hgt] at hcart
      simp only [Except.ok.injEq, List.nil_append] at hcart
      subst hcart
      obtain ⟨hbm, hbid⟩ := findBook_dest hb
      have hguard : ∀ x ∈ st.books, x.bookID = bid → 0 ≤ x.quantity - Q := by
        intro x hx hxid
        have : x = b := books_unique hwf hx hbm (by rw [hxid, hbid])
        subst this
        omega
      refine ⟨{ st with
          books := st.books.map (fun x =>
            if x.bookID == bid then { x with quantity := x.quantity - Q } else x),
          orders := st.orders ++ [Order.mk st.nextOrderID cid sid
            (cartTotal [CartLine.mk bid b.bookName Q b.price (b.price * Q)])
            Status.Completed],
          orderItems := st.orderItems
            ++ [OrderItem.mk st.nextOrderID bid Q b.price],
          nextOrderID := st.nextOrderID + 1 }, ?_, ?_, ?_, ?_⟩
      · unfold place_order
        rw [if_neg (by simp)]
        rw [if_pos hacct, if_pos hstaff]
        unfold insertItemsAndDecrement
        rw [if_pos (bookRowExists_of_find hb)]
        rw [if_pos rfl]
        rw [decrementBook_ok hguard]
        rfl
      · unfold findBook
        dsimp only
        unfold findBook at hb
        rw [find?_decrementMap Q hb]
      · rfl
      · dsimp only
        simp [cartTotal]

/-- Witness for C1: stock 5, one line of 3 copies at 12.50, committed as
Completed → stock 2, one OrderItem of quantity 3, TotalAmount 37.50. -/
theorem place_order_completed_single_witness :
    ∃ st2, place_order egStore [CartLine.mk 7 "Dune" 3 1250 (1250 * 3)] 2 1
        Status.Completed = .ok st2
      ∧ findBook st2 7
          = some (Book.mk 7 "Dune" "SciFi" (5 - 3) "Herbert" "Ace" 1250 1)
      ∧ st2.orderItems = egStore.orderItems ++ [OrderItem.mk egStore.nextOrderID 7 3 1250]
      ∧ st2.orders = egStore.orders
          ++ [Order.mk egStore.nextOrderID 2 1 (1250 * 3) Status.Completed] :=
  place_order_completed_single egStore 7 3
    (Book.mk 7 "Dune" "SciFi" 5 "Herbert" "Ace" 1250 1)
    [CartLine.mk 7 "Dune" 3 1250 (1250 * 3)] 2 1
    (by unfold booksWF; decide) (by decide) (by decide) (by decide) (by decide)
    (by decide)

theorem firstManager_dest {st : Store} {m : Staff} (h : firstManager st = some m) :
    m ∈ st.staff ∧ m.role = Role.Manager := by
  unfold firstManager at h
  exact ⟨List.mem_of_find?_eq_some h, by simpa using List.find?_some h⟩

/-- C5 counterexample: a Manager exists, yet deleting book 7 does not
succeed — an OrderItems row references it and `OrderItems.BookID` has no
`ON DELETE` clause, so MySQL rejects the DELETE. -/
theorem delete_book_fk_counterexample :
    1 ≤ managerCount egStorePending
      ∧ bookRowExists egStorePending.books 7 = true
      ∧ delete_selected_book egStorePending 7 = .error .fkViolation := by
  refine ⟨?_, ?_, ?_⟩ <;> decide

/-- C5 (amended): with zero Managers a book delete fails with
NoManagerForAudit (the rolled-back DELETE leaves the Book row and its stock
unchanged); with a Manager present and no OrderItems row referencing the
book, the delete succeeds, removes the Book row, and the
`BeforeBookDelete` trigger writes a Delete log entry whose actor is an
existing Manager (the entry is then removed again by the BookLog cascade as
the book row disappears). -/
theorem delete_book_audit (st : Store) (bid : Nat) :
    (firstManager st = none →
      delete_selected_book st bid = .error .noManagerForAudit)
    ∧ (∀ m : Staff, firstManager st = some m → bookReferenced st bid = false →
        m ∈ st.staff ∧ m.role = Role.Manager
          ∧ delete_selected_book st bid = .ok (deleteBookRow st bid)
          ∧ (∀ b ∈ (deleteBookRow st bid).books, b.bookID ≠ bid)
          ∧ (bookRowExists st.books bid = true →
              beforeBookDelete st bid
                = st.bookLog ++ [LogEntry.mk bid LogAction.Delete m.staffID])) := by
  constructor
  · intro hnone
    simp only [delete_selected_book, hnone]
  · intro m hm href
    obtain ⟨hmem, hrole⟩ := firstManager_dest hm
    refine ⟨hmem, hrole, ?_, ?_, ?_⟩
    · simp only [delete_selected_book, hm]
      rw [if_neg (by simp [href])]
    · intro b hb
      unfold deleteBookRow at hb
      by_cases hex : bookRowExists st.books bid = true
      · rw [if_pos hex] at hb
        dsimp only at hb
        have := List.of_mem_filter hb
        simpa using this
      · rw [if_neg hex] at hb
        intro hbid
        apply hex
        unfold bookRowExists
        simp only [List.any_eq_true]
        exact ⟨b, hb, by simpa using hbid⟩
    · intro _
      unfold beforeBookDelete
      rw [hm]

/-- Witness for C5 (amended): with only a Clerk on staff the delete is
refused; with a Manager present and the book unreferenced it succeeds and
the trigger logs the delete attributed to the Manager (staff id 1). -/
theorem delete_book_audit_witness :
    delete_selected_book egStoreClerkOnly 7 = .error .noManagerForAudit
      ∧ delete_selected_book egStore 7 = .ok (deleteBookRow egStore 7)
      ∧ beforeBookDelete egStore 7
          = egStore.bookLog ++ [LogEntry.mk 7 LogAction.Delete 1] :=
  ⟨(delete_book_audit egStoreClerkOnly 7).1 (by decide),
   ((delete_book_audit egStore 7).2
      (Staff.mk 1 "Ann" Role.Manager "ann@x.com" "0000000000")
      (by decide) (by decide)).2.2.1,
   ((delete_book_audit egStore 7).2
      (Staff.mk 1 "Ann" Role.Manager "ann@x.com" "0000000000")
      (by decide) (by decide)).2.2.2.2 (by decide)⟩

/-- C6 counterexample: in a store whose only Manager (staff id 1) is also
the logged-in user, attempting to delete that Manager fails with the
self-deletion guard, not with LastManagerError. -/
theorem last_manager_counterexample :
    managerCount egStore = 1
      ∧ (findStaff egStore 1).map Staff.role = some Role.Manager
      ∧ delete_staff egStore 1 1 = .error .selfDelete
      ∧ delete_staff egStore 1 1 ≠ .error .lastManager := by
  refine ⟨?_, ?_, ?_, ?_⟩ <;> decide

theorem staff_filter_eq_self {staff : List Staff} {tgt : Nat}
    (h : ∀ s ∈ staff, ¬ s.staffID = tgt) :
    staff.filter (fun s => !(s.staffID == tgt)) = staff := by
  rw [List.filter_eq_self]
  intro s hs
  simpa using h s hs

/-- Removing the rows with one staff id loses at most one Manager (staff
ids are pairwise distinct). -/
theorem mcount_remove_le (staff : List Staff) (tgt : Nat)
    (hnodup : (staff.map Staff.staffID).Nodup) :
    (staff.filter (fun s => s.role == Role.Manager)).length
      ≤ ((staff.filter (fun s => !(s.staffID == tgt))).filter
          (fun s => s.role == Role.Manager)).length + 1 := by
  induction staff with
  | nil => simp
  | cons x xs ih =>
    simp only [List.map_cons, List.nodup_cons] at hnodup
    obtain ⟨hxnot, hxs⟩ := hnodup
    have ihx := ih hxs
    by_cases hxt : x.staffID = tgt
    · have hxs_eq : xs.filter (fun s => !(s.staffID == tgt)) = xs := by
        apply staff_filter_eq_self
        intro s hs hst
        apply hxnot
        have hid : x.staffID = s.staffID := by rw [hxt, hst]
        rw [hid]
        exact List.mem_map_of_mem _ hs
      have h1 : (!(x.staffID == tgt)) = false := by simp [hxt]
      have houter : List.filter (fun s => !(s.staffID == tgt)) (x :: xs) = xs := by
        rw [List.filter_cons, h1]
        simp [hxs_eq]
      rw [houter, List.filter_cons]
      by_cases hmgr : (x.role == Role.Manager) = true
      · rw [if_pos hmgr]
        simp only [List.length_cons]
        omega
      · rw [if_neg hmgr]
        omega
    · have h1 : (!(x.staffID == tgt)) = true := by simp [hxt]
      have houter : List.filter (fun s => !(s.staffID == tgt)) (x :: xs)
          = x :: xs.filter (fun s => !(s.staffID == tgt)) := by
        rw [List.filter_cons, h1]
        simp
      rw [houter, List.filter_cons, List.filter_cons]
      by_cases hmgr : (x.role == Role.Manager) = true
      · rw [if_pos hmgr, if_pos hmgr]
        simp only [List.length_cons]
        omega
      · rw [if_neg hmgr, if_neg hmgr]
        omega

/-- Removing the rows with the id of a non-Manager (or of nobody) does not
change the Manager count. -/
theorem mcount_remove_eq (staff : List Staff) (tgt : Nat)
    (hnodup : (staff.map Staff.staffID).Nodup)
    (hnm : ∀ s ∈ staff, s.staffID = tgt → ¬ s.role = Role.Manager) :
    ((staff.filter (fun s => !(s.staffID == tgt))).filter
        (fun s => s.role == Role.Manager)).length
      = (staff.filter (fun s => s.role == Role.Manager)).length := by
  induction staff with
  | nil => simp
  | cons x xs ih =>
    simp only [List.map_cons, List.nodup_cons] at hnodup
    obtain ⟨hxnot, hxs⟩ := hnodup
    have ihx := ih hxs (fun s hs => hnm s (List.mem_cons_of_mem _ hs))
    by_cases hxt : x.staffID = tgt
    · have hxs_eq : xs.filter (fun s => !(s.staffID == tgt)) = xs := by
        apply staff_filter_eq_self
        intro s hs hst
        apply hxnot
        have hid : x.staffID = s.staffID := by rw [hxt, hst]
        rw [hid]
        exact List.mem_map_of_mem _ hs
      have h1 : (!(x.staffID == tgt)) = false := by simp [hxt]
      have houter : List.filter (fun s => !(s.staffID == tgt)) (x :: xs) = xs := by
        rw [List.filter_cons, h1]
        simp [hxs_eq]
      rw [houter, List.filter_cons]
      have hxnm : ¬ (x.role == Role.Manager) = true := by
        simpa using hnm x (List.mem_cons_self x xs) hxt
      rw [if_neg hxnm]
    · have h1 : (!(x.staffID == tgt)) = true := by simp [hxt]
      have houter : List.filter (fun s => !(s.staffID == tgt)) (x :: xs)
          = x :: xs.filter (fun s => !(s.staffID == tgt)) := by
        rw [List.filter_cons, h1]
        simp
      rw [houter, List.filter_cons, List.filter_cons]
      by_cases hmgr : (x.role == Role.Manager) = true
      · rw [if_pos hmgr, if_pos hmgr]
        simp only [List.length_cons, ihx]
      · rw [if_neg hmgr, if_neg hmgr]
        exact ihx

/-- With pairwise-distinct staff ids, `find?` by id returns any member
carrying that id. -/
theorem find?_staff_of_mem {staff : List Staff} {tgt : Nat}
    (hnodup : (staff.map Staff.staffID).Nodup) {s : Staff}
    (hs : s ∈ staff) (hid : s.staffID = tgt) :
    staff.find? (fun x => x.staffID == tgt) = some s := by
  induction staff with
  | nil => simp at hs
  | cons x xs ih =>
    simp only [List.map_cons, List.nodup_cons] at hnodup
    obtain ⟨hxnot, hxs⟩ := hnodup
    rcases List.mem_cons.mp hs with rfl | hs2
    · have hxb : (s.staffID == tgt) = true := by simpa using hid
      simp only [List.find?_cons, hxb]
    · have hxt : (x.staffID == tgt) = false := by
        simp only [beq_eq_false_iff_ne, ne_eq]
        intro hxt
        exact hxnot (by rw [hxt, ← hid]; exact List.mem_map_of_mem _ hs2)
      simp only [List.find?_cons, hxt]
      exact ih hxs hs2

/-- C6 (amended): when the lone Manager is not the logged-in user, deleting
them fails with LastManagerError (when they are, the self-deletion guard
fires first — see the counterexample); and any staff deletion that
succeeds leaves at least one Manager, so a Manager always remains. -/
theorem last_manager_guard (st : Store) (cur tgt : Nat) :
    (cur ≠ tgt → ∀ s : Staff, findStaff st tgt = some s →
      s.role = Role.Manager → managerCount st ≤ 1 →
      delete_staff st cur tgt = .error .lastManager)
    ∧ (staffWF st.staff → 1 ≤ managerCount st →
      ∀ st2, delete_staff st cur tgt = .ok st2 → 1 ≤ managerCount st2) := by
  constructor
  · intro hcur s hfind hrole hcount
    unfold delete_staff
    rw [if_neg hcur]
    rw [if_pos]
    simp only [Bool.and_eq_true, decide_eq_true_eq]
    constructor
    · unfold targetIsManager
      rw [hfind]
      simpa using hrole
    · exact hcount
  · intro hwf hone st2 h
    unfold delete_staff at h
    by_cases hc : cur = tgt
    · rw [if_pos hc] at h; simp at h
    · rw [if_neg hc] at h
      by_cases htim : (targetIsManager st tgt && managerCount st ≤ 1) = true
      · rw [if_pos htim] at h; simp at h
      · rw [if_neg htim] at h
        by_cases href : staffReferenced st tgt = true
        · rw [if_pos href] at h; simp at h
        · rw [if_neg href] at h
          simp only [Except.ok.injEq] at h
          subst h
          by_cases hmgr : targetIsManager st tgt = true
          · have hcount : ¬ managerCount st ≤ 1 := by
              intro hle
              exact htim (by simp [hmgr, hle])
            have hle := mcount_remove_le st.staff tgt hwf
            unfold managerCount at hcount ⊢
            dsimp only
            omega
          · have heq := mcount_remove_eq st.staff tgt hwf ?hnm
            case hnm =>
              intro s hs hst hsr
              apply hmgr
              unfold targetIsManager
              have hfind : findStaff st tgt = some s := by
                unfold findStaff
                exact find?_staff_of_mem hwf hs hst
              rw [hfind]
              simpa using hsr
            unfold managerCount at hone ⊢
            dsimp only
            omega

/-- Witness for C6 (amended): the Clerk (id 2) deleting the sole Manager
(id 1) is refused with LastManagerError; the Manager deleting the Clerk
succeeds and a Manager remains. -/
theorem last_manager_guard_witness :
    delete_staff egStore 2 1 = .error .lastManager
      ∧ 1 ≤ managerCount { egStore with
          staff := [Staff.mk 1 "Ann" Role.Manager "ann@x.com" "0000000000"] } :=
  ⟨(last_manager_guard egStore 2 1).1 (by decide)
      (Staff.mk 1 "Ann" Role.Manager "ann@x.com" "0000000000")
      (by decide) (by decide) (by decide),
   (last_manager_guard egStore 1 2).2 (by unfold staffWF; decide) (by decide)
      { egStore with staff := [Staff.mk 1 "Ann" Role.Manager "ann@x.com" "0000000000"] }
      (by decide)⟩

/-! ### Facts about the numeric-string grammars (for C8) -/

theorem digitsUAfter_of_digits {l : List Char}
    (h : ∀ c ∈ l, isDigitChar c = true) : digitsUAfter l = true := by
  induction l with
  | nil => rfl
  | cons c rest ih =>
    unfold digitsUAfter
    rw [if_neg ?hu]
    case hu =>
      intro hequ
      have hc := h c (List.mem_cons_self c rest)
      rw [hequ] at hc
      exact absurd hc (by decide)
    rw [h c (List.mem_cons_self c rest), ih (fun c hc => h c (List.mem_cons_of_mem _ hc))]
    rfl

theorem digitsU_of_allDigits {l : List Char} (h : allDigits l = true) :
    digitsU l = true := by
  unfold allDigits at h
  simp only [Bool.and_eq_true, Bool.not_eq_true', List.all_eq_true] at h
  obtain ⟨hne, hall⟩ := h
  cases l with
  | nil => simp at hne
  | cons c rest =>
    unfold digitsU
    dsimp only
    rw [hall c (List.mem_cons_self c rest),
        digitsUAfter_of_digits (fun x hx => hall x (List.mem_cons_of_mem _ hx))]
    rfl

theorem stripUnderscores_of_digits {l : List Char}
    (h : ∀ c ∈ l, isDigitChar c = true) : stripUnderscores l = l := by
  unfold stripUnderscores
  rw [List.filter_eq_self]
  intro c hc
  have hd := h c hc
  simp only [Bool.not_eq_true', beq_eq_false_iff_ne, ne_eq]
  intro hequ
  rw [hequ] at hd
  exact absurd hd (by decide)

theorem foldl_digits_shift (b : List Char) (acc : Nat) :
    List.foldl (fun a c => 10 * a + digitVal c) acc b
      = acc * 10 ^ b.length + List.foldl (fun a c => 10 * a + digitVal c) 0 b := by
  induction b generalizing acc with
  | nil => simp
  | cons c bs ih =>
    simp only [List.foldl_cons, List.length_cons]
    rw [ih (10 * acc + digitVal c), ih (10 * 0 + digitVal c)]
    ring

theorem natOfDigits_append (a b : List Char) :
    natOfDigits (a ++ b) = natOfDigits a * 10 ^ b.length + natOfDigits b := by
  unfold natOfDigits
  rw [List.foldl_append]
  exact foldl_digits_shift b _

theorem splitAtDot_eq {l a b : List Char} (h : splitAtDot l = some (a, b)) :
    l = a ++ '.' :: b := by
  induction l generalizing a b with
  | nil => simp [splitAtDot] at h
  | cons c rest ih =>
    unfold splitAtDot at h
    by_cases hc : c = '.'
    · rw [if_pos hc] at h
      simp only [Option.some.injEq, Prod.mk.injEq] at h
      obtain ⟨ha, hb⟩ := h
      subst ha
      subst hb
      subst hc
      rfl
    · rw [if_neg hc] at h
      cases hsd : splitAtDot rest with
      | none => rw [hsd] at h; simp at h
      | some p =>
        obtain ⟨a2, b2⟩ := p
        rw [hsd] at h
        simp only [Option.map_some', Option.some.injEq, Prod.mk.injEq] at h
        obtain ⟨ha, hb⟩ := h
        subst hb
        rw [← ha]
        simp [ih hsd]

theorem plain_chars {l : List Char} {q : ℚ} (h : plainDecimalVal l = some q) :
    ∀ c ∈ l, isDigitChar c = true ∨ c = '.' := by
  unfold plainDecimalVal at h
  cases hd : splitAtDot l with
  | none =>
    rw [hd] at h
    by_cases had : allDigits l = true
    · intro c hc
      left
      unfold allDigits at had
      simp only [Bool.and_eq_true, List.all_eq_true] at had
      exact had.2 c hc
    · rw [if_neg had] at h; simp at h
  | some p =>
    obtain ⟨ip, fp⟩ := p
    rw [hd] at h
    dsimp only at h
    by_cases h1 : (ip.isEmpty && fp.isEmpty) = true
    · rw [if_pos h1] at h; simp at h
    · rw [if_neg h1] at h
      by_cases h2 : ((ip.isEmpty || allDigits ip) && (fp.isEmpty || allDigits fp)) = true
      · simp only [Bool.and_eq_true, Bool.or_eq_true] at h2
        obtain ⟨hip, hfp⟩ := h2
        have hl := splitAtDot_eq hd
        subst hl
        intro c hc
        rcases List.mem_append.mp hc with hcip | hcdot
        · left
          rcases hip with hempty | hdig
          · rw [List.isEmpty_iff.mp hempty] at hcip
            exact absurd hcip (List.not_mem_nil c)
          · unfold allDigits at hdig
            simp only [Bool.and_eq_true, List.all_eq_true] at hdig
            exact hdig.2 c hcip
        · rcases List.mem_cons.mp hcdot with rfl | hcfp
          · right; rfl
          · left
            rcases hfp with hempty | hdig
            · rw [List.isEmpty_iff.mp hempty] at hcfp
              exact absurd hcfp (List.not_mem_nil c)
            · unfold allDigits at hdig
              simp only [Bool.and_eq_true, List.all_eq_true] at hdig
              exact hdig.2 c hcfp
      · rw [if_neg h2] at h; simp at h

theorem no_expChar_of_chars {l : List Char}
    (h : ∀ c ∈ l, isDigitChar c = true ∨ c = '.') :
    splitAtExp l = (l, none) := by
  induction l with
  | nil => rfl
  | cons c rest ih =>
    unfold splitAtExp
    rw [if_neg ?hc]
    case hc =>
      intro hor
      simp only [Bool.or_eq_true, beq_iff_eq] at hor
      rcases h c (List.mem_cons_self c rest) with hd | hdot
      · rcases hor with rfl | rfl <;> exact absurd hd (by decide)
      · rcases hor with rfl | rfl <;> exact absurd hdot (by decide)
    rw [ih (fun c hc => h c (List.mem_cons_of_mem _ hc))]

theorem toLower_of_digit_or_dot {c : Char}
    (h : isDigitChar c = true ∨ c = '.') : c.toLower = c := by
  rcases h with hd | rfl
  · simp only [isDigitChar, Bool.and_eq_true, decide_eq_true_eq] at hd
    unfold Char.toLower
    rw [if_neg (by omega)]
  · decide

/-- A plain decimal numeral is not (case-insensitively) `inf`, `infinity`
or `nan`: its first character is a digit or a dot. -/
theorem float_guards_false {l : List Char} {q : ℚ} (h : plainDecimalVal l = some q) :
    (l.map Char.toLower == "inf".toList) = false
      ∧ (l.map Char.toLower == "infinity".toList) = false
      ∧ (l.map Char.toLower == "nan".toList) = false := by
  have hchars := plain_chars h
  cases l with
  | nil => simp [plainDecimalVal, splitAtDot, allDigits] at h
  | cons c rest =>
    have hc := hchars c (List.mem_cons_self c rest)
    have hlow : c.toLower = c := toLower_of_digit_or_dot hc
    refine ⟨?_, ?_, ?_⟩
    · rw [beq_eq_false_iff_ne]
      intro heq
      have hhead := congrArg List.head? heq
      rw [show ("inf".toList : List Char) = ['i', 'n', 'f'] from rfl] at hhead
      simp only [List.map_cons, List.head?_cons, hlow, Option.some.injEq] at hhead
      rcases hc with hd | hdot
      · rw [hhead] at hd
        exact absurd hd (by decide)
      · exact absurd (hhead.symm.trans hdot) (by decide)
    · rw [beq_eq_false_iff_ne]
      intro heq
      have hhead := congrArg List.head? heq
      rw [show ("infinity".toList : List Char)
            = ['i', 'n', 'f', 'i', 'n', 'i', 't', 'y'] from rfl] at hhead
      simp only [List.map_cons, List.head?_cons, hlow, Option.some.injEq] at hhead
      rcases hc with hd | hdot
      · rw [hhead] at hd
        exact absurd hd (by decide)
      · exact absurd (hhead.symm.trans hdot) (by decide)
    · rw [beq_eq_false_iff_ne]
      intro heq
      have hhead := congrArg List.head? heq
      rw [show ("nan".toList : List Char) = ['n', 'a', 'n'] from rfl] at hhead
      simp only [List.map_cons, List.head?_cons, hlow, Option.some.injEq] at hhead
      rcases hc with hd | hdot
      · rw [hhead] at hd
        exact absurd hd (by decide)
      · exact absurd (hhead.symm.trans hdot) (by decide)

theorem q_zero_iff {q : ℚ} {n k : Nat} (h : q * 10 ^ k = (n : ℚ)) :
    q = 0 ↔ n = 0 := by
  have h10 : ((10 : ℚ) ^ k) ≠ 0 := by positivity
  constructor
  · intro h0
    rw [h0, zero_mul] at h
    exact_mod_cast h.symm
  · intro h0
    rw [h0, Nat.cast_zero] at h
    rcases mul_eq_zero.mp h with h1 | h1
    · exact h1
    · exact absurd h1 h10

theorem parseMantissa_of_plain {l : List Char} {q : ℚ}
    (h : plainDecimalVal l = some q) :
    ∃ n k : Nat, parseMantissa l = some (n, k) ∧ (q = 0 ↔ n = 0) := by
  have hnil : natOfDigits ([] : List Char) = 0 := rfl
  unfold plainDecimalVal at h
  unfold parseMantissa
  cases hd : splitAtDot l with
  | none =>
    rw [hd] at h
    by_cases had : allDigits l = true
    · rw [if_pos had] at h
      have hall : ∀ c ∈ l, isDigitChar c = true := by
        unfold allDigits at had
        simp only [Bool.and_eq_true, List.all_eq_true] at had
        exact had.2
      rw [if_pos (digitsU_of_allDigits had), stripUnderscores_of_digits hall]
      refine ⟨natOfDigits l, 0, rfl, ?_⟩
      simp only [Option.some.injEq] at h
      subst h
      exact Nat.cast_eq_zero
    · rw [if_neg had] at h; simp at h
  | some p =>
    obtain ⟨ip, fp⟩ := p
    rw [hd] at h
    dsimp only at h ⊢
    by_cases h1 : (ip.isEmpty && fp.isEmpty) = true
    · rw [if_pos h1] at h; simp at h
    · rw [if_neg h1] at h
      by_cases h2 : ((ip.isEmpty || allDigits ip) && (fp.isEmpty || allDigits fp)) = true
      case neg => rw [if_neg h2] at h; simp at h
      rw [if_pos h2] at h
      simp only [Option.some.injEq] at h
      subst h
      simp only [Bool.and_eq_true, Bool.or_eq_true] at h2
      obtain ⟨hipc, hfpc⟩ := h2
      by_cases hipe : ip.isEmpty = true
      · have hipnil : ip = [] := List.isEmpty_iff.mp hipe
        subst hipnil
        have hfpe : fp.isEmpty = false := by
          by_contra hx
          rw [Bool.not_eq_false] at hx
          exact h1 (by rw [hx]; rfl)
        have hfpd : allDigits fp = true := by
          rcases hfpc with hx | hx
          · rw [hx] at hfpe; exact absurd hfpe (by simp)
          · exact hx
        have hall : ∀ c ∈ fp, isDigitChar c = true := by
          unfold allDigits at hfpd
          simp only [Bool.and_eq_true, List.all_eq_true] at hfpd
          exact hfpd.2
        rw [if_pos (show (List.isEmpty ([] : List Char)) = true from rfl),
            if_pos (digitsU_of_allDigits hfpd), stripUnderscores_of_digits hall]
        refine ⟨natOfDigits fp, fp.length, rfl, ?_⟩
        refine @q_zero_iff _ _ fp.length ?_
        rw [hnil]
        push_cast
        field_simp
      · have hipd : allDigits ip = true := by
          rcases hipc with hx | hx
          · exact absurd hx hipe
          · exact hx
        have hallip : ∀ c ∈ ip, isDigitChar c = true := by
          unfold allDigits at hipd
          simp only [Bool.and_eq_true, List.all_eq_true] at hipd
          exact hipd.2
        have hipe' : ip.isEmpty = false := by
          by_contra hx
          rw [Bool.not_eq_false] at hx
          exact hipe hx
        rw [if_neg (by rw [hipe']; simp), if_pos (digitsU_of_allDigits hipd)]
        by_cases hfpe : fp.isEmpty = true
        · have hfpnil : fp = [] := List.isEmpty_iff.mp hfpe
          subst hfpnil
          rw [if_pos (show (List.isEmpty ([] : List Char)) = true from rfl),
              stripUnderscores_of_digits hallip]
          refine ⟨natOfDigits ip, 0, rfl, ?_⟩
          refine @q_zero_iff _ _ 0 ?_
          rw [hnil]
          push_cast
          simp
        · have hfpd : allDigits fp = true := by
            rcases hfpc with hx | hx
            · exact absurd hx hfpe
            · exact hx
          have hallfp : ∀ c ∈ fp, isDigitChar c = true := by
            unfold allDigits at hfpd
            simp only [Bool.and_eq_true, List.all_eq_true] at hfpd
            exact hfpd.2
          have hfpe' : fp.isEmpty = false := by
            by_contra hx
            rw [Bool.not_eq_false] at hx
            exact hfpe hx
          rw [if_neg (by rw [hfpe']; simp), if_pos (digitsU_of_allDigits hfpd),
              stripUnderscores_of_digits hallip, stripUnderscores_of_digits hallfp]
          refine ⟨natOfDigits (ip ++ fp), fp.length, rfl, ?_⟩
          refine @q_zero_iff _ _ fp.length ?_
          rw [natOfDigits_append]
          push_cast
          field_simp

theorem parseNumeral_of_plain {l : List Char} {q : ℚ}
    (h : plainDecimalVal l = some q) :
    ∃ (n : Nat) (e : Int),
      parseNumeral l = some (.finite (n : Int) e) ∧ (q = 0 ↔ n = 0) := by
  obtain ⟨n, k, hm, hiff⟩ := parseMantissa_of_plain h
  refine ⟨n, -(k : Int), ?_, hiff⟩
  unfold parseNumeral
  rw [no_expChar_of_chars (plain_chars h)]
  dsimp only
  rw [hm]
  rfl

theorem parseFloatBody_of_plain {l : List Char} {q : ℚ}
    (h : plainDecimalVal l = some q) :
    ∃ (n : Nat) (e : Int),
      parseFloatBody l = some (.finite (n : Int) e) ∧ (q = 0 ↔ n = 0) := by
  obtain ⟨hg1, hg2, hg3⟩ := float_guards_false h
  obtain ⟨n, e, hnum, hiff⟩ := parseNumeral_of_plain h
  refine ⟨n, e, ?_, hiff⟩
  unfold parseFloatBody
  dsimp only
  rw [hg1, hg2, hg3]
  simp only [Bool.or_self, Bool.false_eq_true, if_false]
  exact hnum

theorem pyFloatGeZero_of_nonneg {num exp10 : Int} (h : 0 ≤ num) :
    pyFloatGeZero (.finite num exp10) = true := by
  simp only [pyFloatGeZero]
  by_cases he : 0 ≤ exp10
  · rw [if_pos he]
    simpa using h
  · rw [if_neg he]
    simp only [decide_eq_true_eq]
    have h1 : (0 : Int) ≤ num * (((2 : Nat) ^ 1075 : Nat) : Int) :=
      mul_nonneg h (by positivity)
    have h2 : -(((10 : Nat) ^ (-exp10).toNat : Nat) : Int) ≤ 0 :=
      neg_nonpos.mpr (by positivity)
    linarith

/-- The integer encoding in `pyFloatGeZero` agrees with the exact rational
threshold: the rounded double of `num * 10 ^ exp10` compares `>= 0` iff
the exact value is at least `-2 ^ (-1075)`, half the smallest subnormal. -/
theorem pyFloatGeZero_finite_iff (num exp10 : Int) :
    pyFloatGeZero (.finite num exp10) = true
      ↔ -((1 : ℚ) / 2 ^ 1075) ≤ (num : ℚ) * 10 ^ exp10 := by
  simp only [pyFloatGeZero]
  by_cases he : 0 ≤ exp10
  · rw [if_pos he]
    simp only [decide_eq_true_eq]
    rw [show exp10 = ((exp10.toNat : ℕ) : ℤ) from (Int.toNat_of_nonneg he).symm,
        zpow_natCast]
    constructor
    · intro h
      have h1 : (0 : ℚ) ≤ (num : ℚ) * 10 ^ exp10.toNat :=
        mul_nonneg (by exact_mod_cast h) (by positivity)
      have h2 : -((1 : ℚ) / 2 ^ 1075) ≤ 0 := by
        rw [neg_nonpos]
        positivity
      linarith
    · intro h
      by_contra hn
      push_neg at hn
      have hile : num ≤ -1 := by omega
      have hnum : (num : ℚ) ≤ -1 := by exact_mod_cast hile
      have hp : (1 : ℚ) ≤ 10 ^ exp10.toNat := one_le_pow₀ (by norm_num)
      have hneg : (num : ℚ) ≤ 0 := by linarith
      have h3 : (num : ℚ) * 10 ^ exp10.toNat ≤ (num : ℚ) * 1 :=
        mul_le_mul_of_nonpos_left hp hneg
      have h4 : (1 : ℚ) < 2 ^ 1075 := by norm_num
      have h5 : (1 : ℚ) / 2 ^ 1075 < 1 := by
        rw [div_lt_one (by positivity)]
        exact h4
      linarith
  · rw [if_neg he]
    simp only [decide_eq_true_eq]
    have h10 : ((10 : ℚ) ^ exp10) = ((10 : ℚ) ^ ((-exp10).toNat : ℕ))⁻¹ := by
      have hk : (((-exp10).toNat : ℕ) : ℤ) = -exp10 := Int.toNat_of_nonneg (by omega)
      rw [← zpow_natCast (10 : ℚ) (-exp10).toNat, hk, zpow_neg, inv_inv]
    rw [h10, ← div_eq_mul_inv]
    have h2pos : (0 : ℚ) < 2 ^ 1075 := by positivity
    have h10pos : (0 : ℚ) < 10 ^ ((-exp10).toNat : ℕ) := by positivity
    rw [show -((1 : ℚ) / 2 ^ 1075) = (-1) / 2 ^ 1075 by ring]
    rw [div_le_div_iff₀ h2pos h10pos]
    rw [neg_mul, one_mul]
    constructor
    · intro h
      exact_mod_cast h
    · intro h
      exact_mod_cast h

/-- C8 counterexample: `validate_price "inf"` is true — Python `float`
parses `"inf"` to infinity, which compares `>= 0` — yet `"inf"` does not
parse to a non-negative decimal number, so the claimed equivalence fails as
stated. -/
theorem validate_price_inf_counterexample :
    validate_price "inf" = true ∧ specNonNegDecimal "inf" = false := by
  refine ⟨?_, ?_⟩ <;> decide

/-- C8 (amended): `validate_price` and `validate_quantity` always return a
boolean (the `except ValueError` branch is the `none` case of the parse).
`validate_price s` is true exactly when Python `float(s)` succeeds and the
resulting IEEE-754-rounded double compares `>= 0` — equivalently, the
literal's exact value is at least `-2 ^ (-1075)` — which covers every plain
non-negative decimal, but also scientific notation, underscored digit runs,
`inf`, and tiny negative underflows such as `"-1e-400"` that round to
`-0.0`.  `validate_quantity s` is true exactly when Python `int(s)`
succeeds with a strictly positive value. -/
theorem validators_numeric_spec :
    (∀ s : String, specNonNegDecimal s = true → validate_price s = true)
    ∧ (∀ s : String, validate_price s = true
        ↔ ∃ v, pyFloatParse s = some v ∧ pyFloatGeZero v = true)
    ∧ (∀ s : String, validate_quantity s = true
        ↔ ∃ n : Int, pyIntParse s = some n ∧ 0 < n) := by
  refine ⟨?_, ?_, ?_⟩
  · intro s h
    have hparse : ∃ v, pyFloatParse s = some v ∧ pyFloatGeZero v = true := by
      unfold specNonNegDecimal at h
      unfold pyFloatParse
      cases hT : pyStrip s.toList with
      | nil => rw [hT] at h; simp at h
      | cons c r =>
        rw [hT] at h
        dsimp only at h ⊢
        by_cases hplus : c = '+'
        · rw [if_pos hplus] at h ⊢
          obtain ⟨q, hq⟩ := Option.isSome_iff_exists.mp h
          obtain ⟨n, e, hpf, _⟩ := parseFloatBody_of_plain hq
          exact ⟨_, hpf, pyFloatGeZero_of_nonneg (Int.natCast_nonneg n)⟩
        · rw [if_neg hplus] at h ⊢
          by_cases hminus : c = '-'
          · rw [if_pos hminus] at h ⊢
            cases hs : plainDecimalVal r with
            | none => rw [hs] at h; simp at h
            | some q =>
              rw [hs] at h
              simp only [decide_eq_true_eq] at h
              obtain ⟨n, e, hpf, hiff⟩ := parseFloatBody_of_plain hs
              have hn : n = 0 := hiff.mp h
              subst hn
              refine ⟨negFloat (.finite ((0 : Nat) : Int) e), ?_, ?_⟩
              · rw [hpf]; rfl
              · simp only [negFloat]
                exact pyFloatGeZero_of_nonneg (by simp)
          · rw [if_neg hminus] at h ⊢
            obtain ⟨q, hq⟩ := Option.isSome_iff_exists.mp h
            obtain ⟨n, e, hpf, _⟩ := parseFloatBody_of_plain hq
            exact ⟨_, hpf, pyFloatGeZero_of_nonneg (Int.natCast_nonneg n)⟩
    obtain ⟨v, hv, hge⟩ := hparse
    unfold validate_price
    rw [hv]
    exact hge
  · intro s
    unfold validate_price
    cases hp : pyFloatParse s with
    | none => simp
    | some v => simp
  · intro s
    unfold validate_quantity
    cases hp : pyIntParse s with
    | none => simp
    | some n => simp

set_option maxRecDepth 4000 in
/-- Witness for C8 (amended): the plain decimal "2.50" is accepted by
`validate_price`; so is the negative underflow "-1e-400", whose exact value
rounds to `-0.0`; and the `validate_quantity` equivalence instantiated at
"17". -/
theorem validators_numeric_spec_witness :
    validate_price "2.50" = true
      ∧ validate_price "-1e-400" = true
      ∧ (validate_quantity "17" = true
          ↔ ∃ n : Int, pyIntParse "17" = some n ∧ 0 < n) :=
  ⟨validators_numeric_spec.1 "2.50" (by decide),
   (validators_numeric_spec.2.1 "-1e-400").mpr
     ⟨PyFloat.finite (-1) (-400), by decide, by decide⟩,
   validators_numeric_spec.2.2 "17"⟩

/-! ### The order state machine never decrements twice (for C3) -/

theorem update_order_status_ok_dest {st : Store} {oid : Nat} {ns : Status}
    {st2 : Store} (h : update_order_status st oid ns = .ok st2) :
    ∃ o, findOrder st oid = some o ∧ o.status = Status.Pending
      ∧ ∃ books2,
        st2 = { st with books := books2,
                        orders := setOrderStatus st.orders oid ns } := by
  unfold update_order_status at h
  cases hf : findOrder st oid with
  | none => rw [hf] at h; simp at h
  | some o =>
    rw [hf] at h
    dsimp only at h
    by_cases hp : o.status = Status.Pending
    · rw [if_pos hp] at h
      cases hdec : (if ns = Status.Completed then
          decrementAll (orderItemsOf st oid) st.books else Except.ok st.books) with
      | ok books2 =>
        rw [hdec] at h
        dsimp only at h
        simp only [Except.ok.injEq] at h
        exact ⟨o, rfl, hp, books2, h.symm⟩
      | error e => rw [hdec] at h; simp at h
    · rw [if_neg hp] at h; simp at h

theorem delete_selected_book_frame {st : Store} {bid : Nat} {st2 : Store}
    (h : delete_selected_book st bid = .ok st2) :
    st2.orders = st.orders ∧ st2.nextOrderID = st.nextOrderID := by
  unfold delete_selected_book at h
  cases hm : firstManager st with
  | none => rw [hm] at h; simp at h
  | some m =>
    rw [hm] at h
    dsimp only at h
    by_cases hr : bookReferenced st bid = true
    · rw [if_pos hr] at h; simp at h
    · rw [if_neg hr] at h
      simp only [Except.ok.injEq] at h
      subst h
      unfold deleteBookRow
      by_cases hex : bookRowExists st.books bid = true
      · rw [if_pos hex]; exact ⟨rfl, rfl⟩
      · rw [if_neg hex]; exact ⟨rfl, rfl⟩

theorem delete_staff_frame {st : Store} {cur tgt : Nat} {st2 : Store}
    (h : delete_staff st cur tgt = .ok st2) :
    st2.orders = st.orders ∧ st2.nextOrderID = st.nextOrderID := by
  unfold delete_staff at h
  by_cases h1 : cur = tgt
  · rw [if_pos h1] at h; simp at h
  · rw [if_neg h1] at h
    by_cases h2 : (targetIsManager st tgt && managerCount st ≤ 1) = true
    · rw [if_pos h2] at h; simp at h
    · rw [if_neg h2] at h
      by_cases h3 : staffReferenced st tgt = true
      · rw [if_pos h3] at h; simp at h
      · rw [if_neg h3] at h
        simp only [Except.ok.injEq] at h
        subst h
        exact ⟨rfl, rfl⟩

theorem setOrderStatus_mem {orders : List Order} {oid : Nat} {s : Status}
    {o2 : Order} (h : o2 ∈ setOrderStatus orders oid s) :
    ∃ o ∈ orders, o2.orderID = o.orderID := by
  unfold setOrderStatus at h
  obtain ⟨o, ho, heq⟩ := List.mem_map.mp h
  refine ⟨o, ho, ?_⟩
  subst heq
  by_cases hx : (o.orderID == oid) = true <;> simp [hx]

theorem ordersWF_step (st : Store) (a : Act) (h : ordersWF st) :
    ordersWF (stepStore st a) := by
  unfold stepStore
  cases happ : applyAct st a with
  | error e => exact h
  | ok st2 =>
    dsimp only
    cases a with
    | placeOrder cart cid sid status =>
      have happ2 : place_order st cart cid sid status = Except.ok st2 := happ
      obtain ⟨ho, hn, _⟩ := place_order_ok_dest happ2
      intro o hmem
      rw [ho] at hmem
      rw [hn]
      rcases List.mem_append.mp hmem with hold | hnew
      · exact Nat.lt_succ_of_lt (h o hold)
      · simp only [List.mem_singleton] at hnew
        rw [hnew]
        exact Nat.lt_succ_self _
    | updateStatus oid ns =>
      have happ2 : update_order_status st oid ns = Except.ok st2 := happ
      obtain ⟨o0, hf, hp, books2, hst2⟩ := update_order_status_ok_dest happ2
      subst hst2
      intro o hmem
      dsimp only at hmem ⊢
      obtain ⟨o1, ho1, hid⟩ := setOrderStatus_mem hmem
      rw [hid]
      exact h o1 ho1
    | deleteBook bid =>
      have happ2 : delete_selected_book st bid = Except.ok st2 := happ
      obtain ⟨ho, hn⟩ := delete_selected_book_frame happ2
      intro o hmem
      rw [ho] at hmem
      rw [hn]
      exact h o hmem
    | deleteStaff cur tgt =>
      have happ2 : delete_staff st cur tgt = Except.ok st2 := happ
      obtain ⟨ho, hn⟩ := delete_staff_frame happ2
      intro o hmem
      rw [ho] at hmem
      rw [hn]
      exact h o hmem

/-- A Completed order stays Completed across every step, and no step
decrements stock on its behalf. -/
theorem orderCompleted_step (st : Store) (a : Act) (oid : Nat)
    (hwf : ordersWF st) (h : orderStatus st oid = some Status.Completed) :
    orderStatus (stepStore st a) oid = some Status.Completed
      ∧ decrementsFor st a oid = false := by
  obtain ⟨o, hfo, hos⟩ : ∃ o, findOrder st oid = some o
      ∧ o.status = Status.Completed := by
    unfold orderStatus at h
    cases hf : findOrder st oid with
    | none => rw [hf] at h; simp at h
    | some o =>
      rw [hf] at h
      simp only [Option.map_some', Option.some.injEq] at h
      exact ⟨o, rfl, h⟩
  have hlt : oid < st.nextOrderID := by
    obtain ⟨hmem, hid⟩ := findOrder_dest hfo
    rw [← hid]
    exact hwf o hmem
  constructor
  · unfold stepStore
    cases happ : applyAct st a with
    | error e => exact h
    | ok st2 =>
      dsimp only
      cases a with
      | placeOrder cart cid sid status =>
        have happ2 : place_order st cart cid sid status = Except.ok st2 := happ
        obtain ⟨ho, hn, _⟩ := place_order_ok_dest happ2
        unfold orderStatus findOrder
        rw [ho, List.find?_append]
        have hfo' : st.orders.find? (fun x => x.orderID == oid) = some o := hfo
        rw [hfo']
        simp [hos]
      | updateStatus oid2 ns =>
        have happ2 : update_order_status st oid2 ns = Except.ok st2 := happ
        obtain ⟨o2, hf2, hp2, books2, hst2⟩ := update_order_status_ok_dest happ2
        subst hst2
        have hne : oid2 ≠ oid := by
          intro hcontra
          subst hcontra
          rw [hf2] at hfo
          simp only [Option.some.injEq] at hfo
          rw [← hfo] at hos
          rw [hp2] at hos
          exact absurd hos (by decide)
        unfold orderStatus findOrder
        dsimp only
        rw [find?_setOrderStatus_ne ns hne]
        have hfo' : st.orders.find? (fun x => x.orderID == oid) = some o := hfo
        rw [hfo']
        simp [hos]
      | deleteBook bid =>
        have happ2 : delete_selected_book st bid = Except.ok st2 := happ
        obtain ⟨ho, _⟩ := delete_selected_book_frame happ2
        unfold orderStatus findOrder
        rw [ho]
        have hfo' : st.orders.find? (fun x => x.orderID == oid) = some o := hfo
        rw [hfo']
        simp [hos]
      | deleteStaff cur tgt =>
        have happ2 : delete_staff st cur tgt = Except.ok st2 := happ
        obtain ⟨ho, _⟩ := delete_staff_frame happ2
        unfold orderStatus findOrder
        rw [ho]
        have hfo' : st.orders.find? (fun x => x.orderID == oid) = some o := hfo
        rw [hfo']
        simp [hos]
  · cases a with
    | placeOrder cart cid sid status =>
      unfold decrementsFor
      rw [show (oid == st.nextOrderID) = false from by
        simp only [beq_eq_false_iff_ne, ne_eq]
        omega]
      simp
    | updateStatus oid2 ns =>
      unfold decrementsFor
      rw [show (orderStatus st oid == some Status.Pending) = false from by
        rw [h]; decide]
      simp
    | deleteBook bid => rfl
    | deleteStaff cur tgt => rfl

/-- A decrementing step leaves the order Completed. -/
theorem event_completes (st : Store) (a : Act) (oid : Nat) (hwf : ordersWF st)
    (h : decrementsFor st a oid = true) :
    orderStatus (stepStore st a) oid = some Status.Completed := by
  cases a with
  | placeOrder cart cid sid status =>
    unfold decrementsFor at h
    simp only [Bool.and_eq_true, beq_iff_eq] at h
    obtain ⟨⟨hoid, hstatus⟩, hok⟩ := h
    cases happ : applyAct st (Act.placeOrder cart cid sid status) with
    | error e => rw [happ] at hok; simp [isOkStore] at hok
    | ok st2 =>
      unfold stepStore
      rw [happ]
      dsimp only
      have happ2 : place_order st cart cid sid status = Except.ok st2 := happ
      obtain ⟨ho, hn, _⟩ := place_order_ok_dest happ2
      unfold orderStatus findOrder
      rw [ho, List.find?_append]
      have hnone : st.orders.find? (fun x => x.orderID == oid) = none := by
        rw [List.find?_eq_none]
        intro x hx
        simp only [beq_iff_eq]
        intro hxe
        have := hwf x hx
        omega
      rw [hnone]
      simp [hoid, hstatus]
  | updateStatus oid2 ns =>
    unfold decrementsFor at h
    simp only [Bool.and_eq_true, beq_iff_eq] at h
    obtain ⟨⟨⟨hoid, hns⟩, hpend⟩, hok⟩ := h
    cases happ : applyAct st (Act.updateStatus oid2 ns) with
    | error e => rw [happ] at hok; simp [isOkStore] at hok
    | ok st2 =>
      unfold stepStore
      rw [happ]
      dsimp only
      have happ2 : update_order_status st oid2 ns = Except.ok st2 := happ
      obtain ⟨o2, hf2, hp2, books2, hst2⟩ := update_order_status_ok_dest happ2
      subst hst2
      subst hoid
      subst hns
      unfold orderStatus findOrder
      dsimp only
      have hf2' : st.orders.find? (fun x => x.orderID == oid2) = some o2 := hf2
      rw [find?_setOrderStatus_self Status.Completed hf2']
      rfl
  | deleteBook bid => simp [decrementsFor] at h
  | deleteStaff cur tgt => simp [decrementsFor] at h

theorem decrementEvents_zero (as : List Act) (st : Store) (oid : Nat)
    (hwf : ordersWF st) (h : orderStatus st oid = some Status.Completed) :
    decrementEvents st as oid = 0 := by
  induction as generalizing st with
  | nil => rfl
  | cons a rest ih =>
    obtain ⟨hpres, hdf⟩ := orderCompleted_step st a oid hwf h
    unfold decrementEvents
    rw [hdf]
    simp only [Bool.false_eq_true, if_false, Nat.zero_add]
    exact ih _ (ordersWF_step st a hwf) hpres

theorem decrementEvents_le_one (as : List Act) (st : Store) (oid : Nat)
    (hwf : ordersWF st) : decrementEvents st as oid ≤ 1 := by
  induction as generalizing st with
  | nil => simp [decrementEvents]
  | cons a rest ih =>
    unfold decrementEvents
    by_cases hdf : decrementsFor st a oid = true
    · rw [hdf]
      have hcomp := event_completes st a oid hwf hdf
      rw [decrementEvents_zero rest _ oid (ordersWF_step st a hwf) hcomp]
      simp
    · rw [show decrementsFor st a oid = false from by
        rcases Bool.dichotomy (decrementsFor st a oid) with hx | hx
        · exact hx
        · exact absurd hx hdf]
      simp only [Bool.false_eq_true, if_false, Nat.zero_add]
      exact ih _ (ordersWF_step st a hwf)

/-- C3: completing a Pending order decrements stock exactly once per order
line (`decrementAll` walks the order's items once, inside the same
transaction as the status write); invoking the status update on an order
that is no longer Pending — in particular an already-Completed one — fails
with InvalidTransition and mutates nothing; and along any trace of
store operations from a well-formed store, stock is decremented on behalf
of a given order at most once. -/
theorem order_completion_once :
    (∀ (st : Store) (oid : Nat) (o : Order) (books2 : List Book),
      findOrder st oid = some o → o.status = Status.Pending →
      decrementAll (orderItemsOf st oid) st.books = .ok books2 →
      update_order_status st oid Status.Completed
        = .ok { st with books := books2,
                        orders := setOrderStatus st.orders oid Status.Completed })
    ∧ (∀ (st : Store) (oid : Nat) (o : Order) (ns : Status),
      findOrder st oid = some o → o.status = Status.Completed →
      update_order_status st oid ns = .error .invalidTransition)
    ∧ (∀ (st : Store) (oid : Nat) (as : List Act), ordersWF st →
      decrementEvents st as oid ≤ 1) := by
  refine ⟨?_, ?_, ?_⟩
  · intro st oid o books2 hfind hpend hdec
    unfold update_order_status
    rw [hfind]
    dsimp only
    rw [if_pos hpend]
    rw [if_pos (show Status.Completed = Status.Completed from rfl)]
    rw [hdec]
  · intro st oid o ns hfind hcomp
    unfold update_order_status
    rw [hfind]
    dsimp only
    have hnp : ¬ o.status = Status.Pending := by
      rw [hcomp]; decide
    rw [if_neg hnp]
  · intro st oid as hwf
    exact decrementEvents_le_one as st oid hwf

/-- Witness for C3: completing the Pending two-copy order drops stock from
5 to 3; completing the already-Completed order is rejected; a trace that
creates order 10 as Completed and then tries to complete it again performs
at most one decrement on its behalf. -/
theorem order_completion_once_witness :
    update_order_status egStorePending 10 Status.Completed
        = .ok { egStorePending with
                books := [Book.mk 7 "Dune" "SciFi" 3 "Herbert" "Ace" 1250 1],
                orders := setOrderStatus egStorePending.orders 10 Status.Completed }
      ∧ update_order_status egStoreCompleted 10 Status.Completed
          = .error .invalidTransition
      ∧ decrementEvents egStore
          [Act.placeOrder [CartLine.mk 7 "Dune" 3 1250 3750] 2 1 Status.Completed,
           Act.updateStatus 10 Status.Completed] 10 ≤ 1 :=
  ⟨order_completion_once.1 egStorePending 10 (Order.mk 10 2 1 2500 Status.Pending)
      [Book.mk 7 "Dune" "SciFi" 3 "Herbert" "Ace" 1250 1]
      (by decide) (by decide) (by decide),
   order_completion_once.2.1 egStoreCompleted 10 (Order.mk 10 2 1 2500 Status.Completed)
      Status.Completed (by decide) (by decide),
   order_completion_once.2.2 egStore 10
      [Act.placeOrder [CartLine.mk 7 "Dune" 3 1250 3750] 2 1 Status.Completed,
       Act.updateStatus 10 Status.Completed]
      (by unfold ordersWF; decide)⟩

end Bookstore
